import Mathlib

/-!
# tsh job control: a shallow embedding of `pvikrama_shell.c`

* The job list is the C array `job_list[MAXJOBS]`, modelled as a `List job_t`
  of length `MAXJOBS`; the C globals `nextjid` and `max` travel with it in
  `globals`.  A `for (i = 0; i < MAXJOBS; i++)` loop that leaves at the first
  matching slot is `List.findIdx?`; the slot is then rewritten with `List.set`
  (all fields assigned) or `List.modify` (`clearjob`, `a->state = ...`).
* C `int` and `pid_t` values in the job list are mathematical integers: the
  only arithmetic on them is `nextjid++` and `maxjid(...) + 1`, and signed
  overflow is undefined in C.  The job id that `eval` reads with `atoi` is a
  C `int` on an LP64 glibc: `strtol` saturates at the bounds of `long`, and
  the assignment to `int` keeps the low 32 bits.
* The SIGCHLD handler takes the statuses that `waitpid` has available as a
  list; `eval` takes what `parseline` left and the pid that `Fork` returns.
  A faulting pointer access is the result `none` (handler) or `undefined`
  (`eval`).  `printf` output is not modelled, except the listing of
  `listjobs`.
* The shell is a step function over `eval` calls, handler runs and the end of
  the foreground wait.  The launch path of `eval` blocks SIGCHLD around
  `Fork` and `addjob`; the `fg` and `bg` branches do not, and the step
  `line_cut` is such a branch with a handler run between its test
  `state == ST` and its assignment to `state`.
* Function `parseline` works on the characters of the line; its loop is
  bounded by the length of the line, which is enough (`parse_loop_total`).
  Its static `array` is kept with the terminators written into it, and every
  argument with its offset there, because `eval` reads `argv[1] + 1`, which
  for an empty argument lies behind that argument's terminator.
  The struct `*tok` is passed in with its prior content, because the early
  returns leave `builtins` untouched; `eval_line` is `eval` from its first
  statement.
-/

namespace Tsh

/-! ## Constants and data -/

/-- Capacity of the job list (`#define MAXJOBS 16`). -/
def MAXJOBS : Nat := 16

/-- Job state `UNDEF`. -/
def UNDEF : Int := 0
/-- Job state `FG`: running in the foreground. -/
def FG : Int := 1
/-- Job state `BG`: running in the background. -/
def BG : Int := 2
/-- Job state `ST`: stopped. -/
def ST : Int := 3

/-- The job struct `struct job_t`. -/
structure job_t where
  pid : Int
  jid : Int
  state : Int
  cmdline : String
deriving DecidableEq

/-- The global variables the job routines read and write: the job list, the
next job id to allocate (`nextjid`, initially 1) and the running maximum
`max` that `maxjid` updates (a zero-initialised global in this source). -/
structure globals where
  job_list : List job_t
  nextjid : Int
  max : Int
deriving DecidableEq

/-- Function `clearjob`: clear the entries in a job struct. -/
def clearjob (_job : job_t) : job_t :=
  { pid := 0, jid := 0, state := UNDEF, cmdline := "" }

/-- Function `initjobs`: every one of the `MAXJOBS` slots is cleared. -/
def initjobs : List job_t :=
  List.replicate MAXJOBS (clearjob ⟨0, 0, 0, ""⟩)

/-- The globals as `main` leaves them after `initjobs(job_list)`. -/
def init : globals :=
  { job_list := initjobs, nextjid := 1, max := 0 }

/-- Function `maxjid`: the loop raises the global `max` to every larger `jid`
in the list and returns it; `max` is not reset on entry. -/
def maxjid (job_list : List job_t) (max : Int) : Int :=
  job_list.foldl (fun m j => if j.jid > m then j.jid else m) max

/-- Function `addjob`: add a job to the job list.  Returns the C return value
and the globals after the call. -/
def addjob (g : globals) (pid : Int) (state : Int) (cmdline : String) : Int × globals :=
  if pid < 1 then (0, g)
  else
    match g.job_list.findIdx? (fun j => j.pid == 0) with
    | some i =>
      (1, { g with
            job_list := g.job_list.set i
              { pid := pid, state := state, jid := g.nextjid, cmdline := cmdline }
            nextjid := if g.nextjid + 1 > (MAXJOBS : Int) then 1 else g.nextjid + 1 })
    | none => (0, g)

/-- Function `deletejob`: delete the job whose PID is `pid` from the list. -/
def deletejob (g : globals) (pid : Int) : Int × globals :=
  if pid < 1 then (0, g)
  else
    match g.job_list.findIdx? (fun j => j.pid == pid) with
    | some i =>
      let jl := g.job_list.modify clearjob i
      let m := maxjid jl g.max
      (1, { job_list := jl, nextjid := m + 1, max := m })
    | none => (0, g)

/-- Function `fgpid`: PID of the first slot in state `FG`, 0 if there is none. -/
def fgpid (job_list : List job_t) : Int :=
  match job_list.find? (fun j => j.state == FG) with
  | some j => j.pid
  | none => 0

/-- Function `getjobpid`: index of the slot the returned pointer refers to,
`none` for `NULL`. -/
def getjobpid (job_list : List job_t) (pid : Int) : Option Nat :=
  if pid < 1 then none
  else job_list.findIdx? (fun j => j.pid == pid)

/-- Function `getjobjid`: index of the slot the returned pointer refers to,
`none` for `NULL`. -/
def getjobjid (job_list : List job_t) (jid : Int) : Option Nat :=
  if jid < 1 then none
  else job_list.findIdx? (fun j => j.jid == jid)

/-- Function `pid2jid`: map a process ID to a job ID, 0 if there is none. -/
def pid2jid (job_list : List job_t) (pid : Int) : Int :=
  if pid < 1 then 0
  else
    match job_list.find? (fun j => j.pid == pid) with
    | some j => j.jid
    | none => 0

/-- A slot holds a job when its `pid` is not 0 (the test `addjob` and
`listjobs` use). -/
def live (j : job_t) : Bool := j.pid != 0

/-- One call of `addjob` or `deletejob`. -/
inductive job_op where
  | add (pid : Int) (state : Int) (cmdline : String)
  | del (pid : Int)
deriving DecidableEq

/-- Apply one job-list call to the globals, discarding the return value. -/
def apply_op (g : globals) : job_op → globals
  | .add pid state cmdline => (addjob g pid state cmdline).2
  | .del pid => (deletejob g pid).2

/-- Apply a sequence of job-list calls, first call first. -/
def run_ops (g : globals) (ops : List job_op) : globals :=
  ops.foldl apply_op g

/-- The job ids of the live slots, in slot order. -/
def live_jids (job_list : List job_t) : List Int :=
  (job_list.filter live).map (fun j => j.jid)

/-- The process ids of the live slots, in slot order. -/
def live_pids (job_list : List job_t) : List Int :=
  (job_list.filter live).map (fun j => j.pid)

/-- A call is admissible in `g` when an added pid is positive and differs
from the pid of every job live in `g`; any `deletejob` call is admissible. -/
def admissible_op (g : globals) : job_op → Bool
  | .add pid _ _ => decide (0 < pid) && !(live_pids g.job_list).contains pid
  | .del _ => true

/-- Every call of the sequence is admissible in the state it is made in. -/
def admissible (g : globals) : List job_op → Bool
  | [] => true
  | op :: ops => admissible_op g op && admissible (apply_op g op) ops

/-- Fifteen background launches with pids 100..114, the deletion of pid 101,
and two more launches with pids 200 and 201. -/
def wrap_ops : List job_op :=
  (List.range 15).map (fun i => job_op.add (100 + (i : Int)) BG "sleep 100 &")
    ++ [.del 101, .add 200 BG "sleep 100 &", .add 201 BG "sleep 100 &"]

/-! ## Listing -/

/-- The state label `listjobs` prints for slot `i`: each label is written
with trailing blanks, as the `sprintf` format strings give it. -/
def state_label (i : Nat) (j : job_t) : String :=
  if j.state == BG then "Running    "
  else if j.state == FG then "Foreground "
  else if j.state == ST then "Stopped    "
  else "listjobs: Internal error: job[" ++ toString i ++ "].state=" ++ toString j.state ++ " "

/-- The three `write` calls `listjobs` makes for slot `i` when it is live. -/
def listjobs_writes (i : Nat) (j : job_t) : List String :=
  [ "[" ++ toString j.jid ++ "] (" ++ toString j.pid ++ ") ",
    state_label i j,
    j.cmdline ++ "\n" ]

/-- The loop of `listjobs` from slot index `i` on: `out` is what has been
written to `output_fd` so far, one list element per `write` call. -/
def listjobs_loop : Nat → List job_t → List String → List String
  | _, [], out => out
  | i, j :: rest, out =>
    if j.pid != 0 then listjobs_loop (i + 1) rest (out ++ listjobs_writes i j)
    else listjobs_loop (i + 1) rest out

/-- Function `listjobs`: everything written to `output_fd`, in order. -/
def listjobs (job_list : List job_t) : List String :=
  listjobs_loop 0 job_list []

/-! ## Child statuses and the SIGCHLD handler -/

/-- What `waitpid` stores in `status` with the options `WNOHANG|WUNTRACED`:
the child exited, was terminated by a signal, or was stopped by a signal. -/
inductive wstatus where
  | exited (code : Int)
  | signaled (sig : Int)
  | stopped (sig : Int)
deriving DecidableEq

/-- The libc test `WIFSIGNALED`. -/
def WIFSIGNALED : wstatus → Bool
  | .signaled _ => true
  | _ => false

/-- The libc accessor `WTERMSIG`. -/
def WTERMSIG : wstatus → Int
  | .signaled sig => sig
  | _ => 0

/-- The libc test `WIFSTOPPED`. -/
def WIFSTOPPED : wstatus → Bool
  | .stopped _ => true
  | _ => false

/-- The libc accessor `WSTOPSIG`. -/
def WSTOPSIG : wstatus → Int
  | .stopped sig => sig
  | _ => 0

/-- The assignment `a->state = ST` on one slot. -/
def set_state (state : Int) (j : job_t) : job_t :=
  { j with state := state }

/-- Function `sigchld_handler`.  The argument list is what successive
`waitpid(-1, &status, WNOHANG|WUNTRACED)` calls return: the head is the next
child whose status is available, and on the empty list `waitpid` returns a
value that is not positive.  The result is the globals when the handler
returns together with the statuses it has left uncollected; `none` is the
write through the `NULL` pointer that `getjobpid` returned.  The `printf`
calls do not touch the job list and are left out. -/
def sigchld_handler (g : globals) : List (Int × wstatus) → Option (globals × List (Int × wstatus))
  | [] => some (g, [])
  | (pidchld, status) :: rest =>
    if pidchld > 0 then
      if WIFSIGNALED status && WTERMSIG status != 0 then
        sigchld_handler (deletejob g pidchld).2 rest
      else if WIFSTOPPED status && WSTOPSIG status != 0 then
        match getjobpid g.job_list pidchld with
        | some a => some ({ g with job_list := g.job_list.modify (set_state ST) a }, rest)
        | none => none
      else
        sigchld_handler (deletejob g pidchld).2 rest
    else some (g, (pidchld, status) :: rest)

/-- The effect the handler has for one collected status, taken alone. -/
def reap_one (g : globals) (child : Int × wstatus) : Option globals :=
  (sigchld_handler g [child]).map (fun r => r.1)

/-- The per-status effect applied to every status of a list, first to last. -/
def reap_each (g : globals) : List (Int × wstatus) → Option globals
  | [] => some g
  | child :: rest => (reap_one g child).bind (fun g1 => reap_each g1 rest)

/-! ## Tokens -/

/-- The enumeration `builtins_t`. -/
inductive builtins_t where
  | BUILTIN_NONE
  | BUILTIN_QUIT
  | BUILTIN_JOBS
  | BUILTIN_BG
  | BUILTIN_FG
deriving DecidableEq

/-- The struct `cmdline_tokens`: `argv` holds the `argc` arguments, and the
entry after the last one is the `NULL` pointer. -/
structure cmdline_tokens where
  argv : List String
  infile : Option String
  outfile : Option String
  builtins : builtins_t
deriving DecidableEq

/-! ## parseline -/

/-- Size of the argument array (`#define MAXARGS 128`). -/
def MAXARGS : Nat := 128

/-- Parsing state `ST_NORMAL`: the next token is an argument. -/
def ST_NORMAL : Nat := 0
/-- Parsing state `ST_INFILE`: the next token is the input file. -/
def ST_INFILE : Nat := 1
/-- Parsing state `ST_OUTFILE`: the next token is the output file. -/
def ST_OUTFILE : Nat := 2

/-- The argument delimiters `delims`: blank, tab, carriage return, newline. -/
def is_delim (c : Char) : Bool :=
  c == ' ' || c == '\t' || c == '\r' || c == '\n'

/-- The quote characters that open a quoted token: the single quote (code
39) and the double quote (code 34). -/
def is_quote (c : Char) : Bool :=
  c.toNat == 39 || c.toNat == 34

/-- The terminator that `*next = 0` writes into the array. -/
def NUL : Char := Char.ofNat 0

/-- What the loop of `parseline` has stored so far: the arguments
`argv[0..argc-1]`, the two file names, the global `parsing_state`, the bytes
of the static `array` (the copy of the line, with the terminators written so
far), and for every argument the offset in `array` that its `argv` pointer
holds. -/
structure parse_vars where
  argv : List String
  infile : Option String
  outfile : Option String
  parsing_state : Nat
  array : List Char
  argp : List Nat
deriving DecidableEq

/-- How the loop of `parseline` ends: it runs to its end (`finished`), or a
`return -1` inside it is taken (`failed`). -/
inductive loop_end where
  | finished (v : parse_vars)
  | failed (v : parse_vars)
deriving DecidableEq

/-- The token that starts at `buf` (whose first character is `c`), and the
text at `next + 1`: a quoted token runs to the next occurrence of its quote
(`strchr`; `none` when there is none), any other token to the next delimiter
or to the end of the line (`strcspn`). -/
def next_token (c : Char) (rest : List Char) : Option (List Char × List Char) :=
  if is_quote c then
    if rest.contains c then
      some (rest.takeWhile (fun x => x != c), (rest.dropWhile (fun x => x != c)).drop 1)
    else none
  else
    some ((c :: rest).takeWhile (fun x => !is_delim x),
          ((c :: rest).dropWhile (fun x => !is_delim x)).drop 1)

/-- The `switch (parsing_state)` of `parseline` that records the token at
offset `p` of the array, followed by `parsing_state = ST_NORMAL`; `none` is
its `default` case (`return -1`). -/
def record_token (v : parse_vars) (token : String) (p : Nat) : Option parse_vars :=
  if v.parsing_state = ST_NORMAL then
    some { v with argv := v.argv ++ [token], argp := v.argp ++ [p],
                  parsing_state := ST_NORMAL }
  else if v.parsing_state = ST_INFILE then
    some { v with infile := some token, parsing_state := ST_NORMAL }
  else if v.parsing_state = ST_OUTFILE then
    some { v with outfile := some token, parsing_state := ST_NORMAL }
  else none

/-- How one pass of the loop of `parseline` ends: the loop is left (`stop`),
or the next pass starts at `buf` (`next`). -/
inductive pass_end where
  | stop (e : loop_end)
  | next (buf : List Char) (v : parse_vars)
deriving DecidableEq

/-- One pass of the loop `while (buf < endbuf)` of `parseline`, on the text
from `buf` to the end of the line.  With `start` bytes from the first byte of
a token to the end of the line, the token stands at offset
`array.length - start`, and `*next = 0` writes the terminator `token.length`
bytes further on (when the token runs to the end of the line, over the
terminator that is there: no byte of the line changes). -/
def parse_pass (buf : List Char) (v : parse_vars) : pass_end :=
  match buf.dropWhile is_delim with
  | [] => .stop (.finished v)
  | c :: rest =>
    if c == '<' then
      if v.infile.isSome then .stop (.failed v)
      else .next rest { v with parsing_state := v.parsing_state ||| ST_INFILE }
    else if c == '>' then
      if v.outfile.isSome then .stop (.failed v)
      else .next rest { v with parsing_state := v.parsing_state ||| ST_OUTFILE }
    else
      match next_token c rest with
      | none => .stop (.failed v)
      | some (token, after) =>
        let start := if is_quote c then rest.length else rest.length + 1
        let v0 := { v with
          array := v.array.set (v.array.length - (start - token.length)) NUL }
        match record_token v0 (String.mk token) (v.array.length - start) with
        | none => .stop (.failed v0)
        | some v1 =>
          if v1.argv.length ≥ MAXARGS - 1 then .stop (.finished v1)
          else .next after v1

/-- The loop `while (buf < endbuf)` of `parseline`.  Every pass consumes at
least one character; the first argument bounds the number of passes, and
`none` means the bound was too small (`parse_loop_total`: the length of the
text plus one is enough). -/
def parse_loop : Nat → List Char → parse_vars → Option loop_end
  | 0, _, _ => none
  | fuel + 1, buf, v =>
    match parse_pass buf v with
    | .stop e => some e
    | .next buf1 v1 => parse_loop fuel buf1 v1

/-- The variables of the loop when it starts on a line: the array holds the
line, there is no argument and no file name, `parsing_state = ST_NORMAL`. -/
def parse_start (line : List Char) : parse_vars :=
  { argv := [], infile := none, outfile := none, parsing_state := ST_NORMAL,
    array := line, argp := [] }

/-- The classification of `argv[0]` by the `strcmp` chain of `parseline`. -/
def classify (arg0 : String) : builtins_t :=
  if arg0 = "quit" then .BUILTIN_QUIT
  else if arg0 = "jobs" then .BUILTIN_JOBS
  else if arg0 = "bg" then .BUILTIN_BG
  else if arg0 = "fg" then .BUILTIN_FG
  else .BUILTIN_NONE

/-- The fields of `*tok` that `parseline` has written when it returns before
the classification: `builtins` keeps what the caller's struct held. -/
def store_vars (tok : cmdline_tokens) (v : parse_vars) : cmdline_tokens :=
  { tok with argv := v.argv, infile := v.infile, outfile := v.outfile }

/-- The end of `parseline`, after its loop: the return value and `*tok`. -/
def parse_finish (tok : cmdline_tokens) : loop_end → Int × cmdline_tokens
  | .failed v => (-1, store_vars tok v)
  | .finished v =>
    if v.parsing_state != ST_NORMAL then (-1, store_vars tok v)
    else
      match v.argv.getLast? with
      | none => (1, store_vars tok v)
      | some last =>
        let builtins := classify (v.argv.headD "")
        if last.toList.head? == some '&' then
          (1, { argv := v.argv.dropLast, infile := v.infile, outfile := v.outfile,
                builtins := builtins })
        else
          (0, { argv := v.argv, infile := v.infile, outfile := v.outfile,
                builtins := builtins })

/-- Function `parseline`: the return value and the struct `*tok` afterwards,
given the line and what `*tok` held before the call (`eval` passes an
uninitialised local).  The line is shorter than `MAXLINE`, as `fgets` in
`main` delivers it; the messages on `stderr` are left out. -/
def parseline (cmdline : String) (tok : cmdline_tokens) : Option (Int × cmdline_tokens) :=
  (parse_loop (cmdline.length + 1) cmdline.toList (parse_start cmdline.toList)).map
    (parse_finish tok)

/-- The C string that starts at offset `p` of the array: the bytes up to the
first terminator. -/
def c_string_at (array : List Char) (p : Nat) : List Char :=
  (array.drop p).takeWhile (fun x => x != NUL)

/-- The C string at `tok.argv[1] + 1` in the array of `parseline` after it
has parsed the line (empty when the loop recorded no second argument). -/
def argv1_plus_one (cmdline : String) : List Char :=
  match parse_loop (cmdline.length + 1) cmdline.toList (parse_start cmdline.toList) with
  | some (.finished v) =>
    match v.argp[1]? with
    | some p => c_string_at v.array (p + 1)
    | none => []
  | some (.failed v) =>
    match v.argp[1]? with
    | some p => c_string_at v.array (p + 1)
    | none => []
  | none => []

/-! ## Lines written without quotes -/

/-- The libc test `isspace` in the C locale. -/
def isspace (c : Char) : Bool :=
  c == ' ' || c == '\t' || c == '\n' || c == '\r' || c.toNat == 11 || c.toNat == 12

/-- The digit loop of `strtol`: decimal digits are accumulated until the
first character that is not one. -/
def atoi_digits (acc : Int) : List Char → Int
  | [] => acc
  | c :: cs => if c.isDigit then atoi_digits (acc * 10 + ((c.toNat : Int) - 48)) cs else acc

/-- The largest `long` (64 bits). -/
def LONG_MAX : Int := 9223372036854775807
/-- The smallest `long` (64 bits). -/
def LONG_MIN : Int := -9223372036854775808

/-- The libc function `strtol(s, NULL, 10)` on the characters of a C string:
leading white space is skipped, an optional sign is read, then decimal
digits; a value outside `long` is replaced by `LONG_MAX` or `LONG_MIN`. -/
def strtol (s : List Char) : Int :=
  let v : Int :=
    match s.dropWhile isspace with
    | [] => 0
    | c :: cs =>
      if c == '-' then - atoi_digits 0 cs
      else if c == '+' then atoi_digits 0 cs
      else atoi_digits 0 (c :: cs)
  if v > LONG_MAX then LONG_MAX else if v < LONG_MIN then LONG_MIN else v

/-- The conversion of a `long` to `int`: the low 32 bits, read as a signed
number. -/
def long_to_int (v : Int) : Int :=
  (v + 2147483648) % 4294967296 - 2147483648

/-- The libc function `atoi`, which is `(int) strtol(s, NULL, 10)` in the C
library the shell is built with (64-bit `long`, 32-bit `int`); its result is
what `eval` stores in `int id`. -/
def atoi (s : List Char) : Int :=
  long_to_int (strtol s)

/-- The C string at `ptr` after `ptr = tok.argv[1]; ptr = ptr + 1;` in
`eval`.  For a token that is not empty these are the bytes of the token after
its first one.  For the empty token `ptr` has stepped over the terminator,
and the string is read from the array of `parseline`, which holds the line
that `eval` was given. -/
def ptr_plus_one (arg : String) (cmdline : String) : List Char :=
  match arg.toList with
  | [] => argv1_plus_one cmdline
  | _ :: rest => rest

/-- The value `id = atoi(ptr)` of `eval` for the token `argv[1]`: the first
byte is stepped over, whatever it is, and the rest is converted. -/
def job_arg (arg : String) (cmdline : String) : Int :=
  atoi (ptr_plus_one arg cmdline)

/-! ## eval -/

/-- How a call of `eval` leaves the shell. -/
inductive eval_outcome where
  /-- Function `eval` returned to the read loop of `main`. -/
  | returned (g : globals)
  /-- Function `eval` is in its loop `while(fgpid(job_list)) sigsuspend(...)`. -/
  | waiting (g : globals)
  /-- The shell called `exit(0)` (`quit`). -/
  | exited
  /-- The pointer `tok.argv[1]` is `NULL`, and `atoi` reads through
  `tok.argv[1] + 1`. -/
  | undefined
deriving DecidableEq

/-- The `fg` and `bg` branches of `eval` after `id = atoi(ptr)`: `getjobjid`
looks the job up; a job in state `ST` gets the state `target`, and the flag
says whether `eval` then waits for the foreground job (`fg`) or returns
(`bg`).  When the job is not stopped, `eval` prints and returns; when
`getjobjid` returns `NULL`, it prints and falls through the later tests, none
of which matches the same `builtins` value, to the final `return`. -/
def eval_jobctl (g : globals) (id : Int) (target : Int) (wait : Bool) : eval_outcome :=
  match getjobjid g.job_list id with
  | some a =>
    if (g.job_list[a]?.map (fun j => j.state)) = some ST then
      let g1 := { g with job_list := g.job_list.modify (set_state target) a }
      if wait then .waiting g1 else .returned g1
    else .returned g
  | none => .returned g

/-- Function `eval`, after its call `bg = parseline(cmdline, &tok)`, when no
signal handler runs before it returns or starts to wait: `tok` and `bg` are
what `parseline` left, and `pid` is the value `Fork()` returns in the shell
(the child never returns from `Execve`).  The model follows the path on which
the wrapped system calls succeed (the wrappers end the shell otherwise) and
leaves out the `printf` calls; the listing of `jobs` is `listjobs`, which
does not change the globals. -/
def eval (g : globals) (tok : cmdline_tokens) (bg : Int) (cmdline : String) (pid : Int) :
    eval_outcome :=
  let state1 := if bg != 0 then BG else FG
  match tok.builtins with
  | .BUILTIN_FG =>
    match tok.argv[1]? with
    | none => .undefined
    | some arg => eval_jobctl g (job_arg arg cmdline) FG true
  | .BUILTIN_BG =>
    match tok.argv[1]? with
    | none => .undefined
    | some arg => eval_jobctl g (job_arg arg cmdline) BG false
  | .BUILTIN_QUIT => .exited
  | .BUILTIN_JOBS => .returned g
  | .BUILTIN_NONE =>
    let g1 := (addjob g pid state1 cmdline).2
    if bg == 0 then .waiting g1 else .returned g1

/-- Function `eval` from its first statement: `tok` is the content of the
uninitialised local `tok` on entry, `cmdline` the line that `main` read. -/
def eval_line (g : globals) (tok : cmdline_tokens) (cmdline : String) (pid : Int) :
    eval_outcome :=
  match parseline cmdline tok with
  | some r => eval g r.2 r.1 cmdline pid
  | none => .undefined

/-- The `fg` and `bg` branches of `eval` when the handler for SIGCHLD runs
between the test `fg->state == ST` and the assignment `fg->state = FG` (these
branches do not block the signal): the test is made on the table before the
handler, the assignment goes to the same slot of the table that the handler
leaves.  `none`: the test fails, so that point of `eval` is not reached, or
the handler faults. -/
def eval_jobctl_cut (g : globals) (id : Int) (target : Int) (wait : Bool)
    (avail : List (Int × wstatus)) : Option eval_outcome :=
  match getjobjid g.job_list id with
  | some a =>
    if (g.job_list[a]?.map (fun j => j.state)) = some ST then
      match sigchld_handler g avail with
      | some r =>
        let g1 := { r.1 with job_list := r.1.job_list.modify (set_state target) a }
        some (if wait then .waiting g1 else .returned g1)
      | none => none
    else none
  | none => none

/-- Function `eval` on a `fg` or `bg` line, with a run of the handler between
the test of the state and the assignment (`eval_jobctl_cut`). -/
def eval_cut (g : globals) (tok : cmdline_tokens) (cmdline : String)
    (avail : List (Int × wstatus)) : Option eval_outcome :=
  match tok.builtins with
  | .BUILTIN_FG =>
    match tok.argv[1]? with
    | none => none
    | some arg => eval_jobctl_cut g (job_arg arg cmdline) FG true avail
  | .BUILTIN_BG =>
    match tok.argv[1]? with
    | none => none
    | some arg => eval_jobctl_cut g (job_arg arg cmdline) BG false avail
  | _ => none

/-! ## The shell as a transition system -/

/-- The shell between two steps: its globals, and whether `eval` is in its
foreground wait loop (`true`) or `main` is at its read loop (`false`). -/
structure shell where
  g : globals
  waiting : Bool
deriving DecidableEq

/-- The steps of the shell. -/
inductive event where
  /-- The read loop passes a line to `eval`, and no handler runs inside the
  call: the tokens and the value left by `parseline`, the line, and the pid
  `Fork()` gives if the line is launched. -/
  | line (tok : cmdline_tokens) (bg : Int) (cmdline : String) (pid : Int)
  /-- The handler for SIGCHLD runs, with these statuses available to `waitpid`. -/
  | sigchld (avail : List (Int × wstatus))
  /-- The wait loop tests `fgpid(job_list)`, finds 0, and `eval` returns. -/
  | resume
  /-- The read loop passes a `fg` or `bg` line to `eval`, and the handler for
  SIGCHLD runs inside the call, between the test of the job's state and the
  assignment of the new state. -/
  | line_cut (tok : cmdline_tokens) (cmdline : String) (avail : List (Int × wstatus))
deriving DecidableEq

/-- One step.  A line is read only when `eval` is not waiting; the wait ends
only when `fgpid` is 0; the handler may run between two steps, and inside the
`fg` and `bg` branches of `eval`, where SIGCHLD is not blocked (`line_cut`).
On the launch path SIGCHLD is blocked from before `Fork` until after
`addjob`.  `none`: the step is not possible there, or the shell ends in it. -/
def step (s : shell) : event → Option shell
  | .line tok bg cmdline pid =>
    if s.waiting then none
    else
      match eval s.g tok bg cmdline pid with
      | .returned g1 => some { g := g1, waiting := false }
      | .waiting g1 => some { g := g1, waiting := true }
      | .exited => none
      | .undefined => none
  | .sigchld avail =>
    match sigchld_handler s.g avail with
    | some r => some { s with g := r.1 }
    | none => none
  | .resume =>
    if s.waiting && fgpid s.g.job_list == 0 then some { s with waiting := false }
    else none
  | .line_cut tok cmdline avail =>
    if s.waiting then none
    else
      match eval_cut s.g tok cmdline avail with
      | some (.returned g1) => some { g := g1, waiting := false }
      | some (.waiting g1) => some { g := g1, waiting := true }
      | _ => none

/-- Run a sequence of steps, first step first. -/
def run : shell → List event → Option shell
  | s, [] => some s
  | s, e :: es => (step s e).bind (fun s1 => run s1 es)

/-- The shell when `main` enters its read loop. -/
def init_shell : shell :=
  { g := init, waiting := false }

/-- The number of slots of the job list in state `FG`. -/
def fg_count (job_list : List job_t) : Nat :=
  job_list.countP (fun j => j.state == FG)

/-- The process ids of the live jobs in state `FG`, in slot order. -/
def fg_pids (job_list : List job_t) : List Int :=
  (job_list.filter (fun j => live j && j.state == FG)).map (fun j => j.pid)

/-- Globals of the shell after `eval`, when the shell is still running and
the outcome is determined. -/
def outcome_globals : eval_outcome → Option globals
  | .returned g => some g
  | .waiting g => some g
  | .exited => none
  | .undefined => none

/-- Empty slots are cleared: a slot with `pid` 0 has `jid` 0 and state `UNDEF`. -/
def empty_cleared (job_list : List job_t) : Prop :=
  ∀ j ∈ job_list, j.pid = 0 → j.jid = 0 ∧ j.state = UNDEF

/-- The invariant of the steps in which no handler runs inside `eval`: empty
slots are cleared, at most one slot is in state `FG`, and none is while
`main` is at its read loop. -/
def shell_inv (s : shell) : Prop :=
  empty_cleared s.g.job_list ∧ fg_count s.g.job_list ≤ 1 ∧
    (s.waiting = false → fg_count s.g.job_list = 0)

/-- A step in which no handler runs inside a call of `eval`. -/
def uninterrupted : event → Bool
  | .line_cut _ _ _ => false
  | _ => true

/-! ## Example states and runs -/

/-- Two background jobs (pids 5 and 6, job ids 1 and 2) after the handler
collected "6 stopped by signal 20". -/
def one_stopped : globals :=
  match sigchld_handler (run_ops init [.add 5 BG "a &", .add 6 BG "b &"]) [(6, .stopped 20)] with
  | some r => r.1
  | none => init

/-- Shell steps: pid 5 is launched in the foreground, stopped by signal 20,
the wait ends, and `fg %1` puts it back in the foreground. -/
def fg_trace : List event :=
  [ .line ⟨["sleep", "10"], none, none, .BUILTIN_NONE⟩ 0 "sleep 10" 5,
    .sigchld [(5, .stopped 20)],
    .resume,
    .line ⟨["fg", "%1"], none, none, .BUILTIN_FG⟩ 0 "fg %1" 0 ]

/-- The shell after `fg_trace`: waiting, job 1 (pid 5) in state `FG`. -/
def fg_trace_end : shell :=
  { g := { job_list := ⟨5, 1, FG, "sleep 10"⟩ :: List.replicate 15 ⟨0, 0, UNDEF, ""⟩,
           nextjid := 2, max := 0 },
    waiting := true }

/-- The table after sixteen background launches with pids 100..115: no slot
is empty. -/
def full_table : globals :=
  run_ops init ((List.range 16).map (fun i => job_op.add (100 + (i : Int)) BG "sleep 100 &"))

/-- The table after launching pids 5 and 6 and deleting pid 5: slot 0 is
empty, slot 1 holds pid 6 with job id 2, `nextjid` is 3. -/
def gap_table : globals :=
  run_ops init [.add 5 BG "a &", .add 6 BG "b &", .del 5]

/-- The table after launching pid 5 in the foreground and pid 6 in the
background. -/
def two_jobs : globals :=
  run_ops init [.add 5 FG "a", .add 6 BG "b &"]

/-- The tokens `parseline` leaves for the line `bg %2`. -/
def bg_two : cmdline_tokens :=
  { argv := ["bg", "%2"], infile := none, outfile := none, builtins := .BUILTIN_BG }

/-- The tokens `parseline` leaves for the line `bg %1`. -/
def bg_one : cmdline_tokens :=
  { argv := ["bg", "%1"], infile := none, outfile := none, builtins := .BUILTIN_BG }

/-- The tokens `parseline` leaves for the line `fg %1`. -/
def fg_one : cmdline_tokens :=
  { argv := ["fg", "%1"], infile := none, outfile := none, builtins := .BUILTIN_FG }

/-- The tokens `parseline` leaves for the line `fg %2`. -/
def fg_two : cmdline_tokens :=
  { argv := ["fg", "%2"], infile := none, outfile := none, builtins := .BUILTIN_FG }

/-- The tokens `parseline` leaves for the line `sleep 100`. -/
def sleep_tok : cmdline_tokens :=
  { argv := ["sleep", "100"], infile := none, outfile := none, builtins := .BUILTIN_NONE }

/-- The tokens and line of a background launch `sleep 100 &` that gets `pid`. -/
def launch_bg (pid : Int) : event :=
  .line ⟨["sleep", "100"], none, none, .BUILTIN_NONE⟩ 1 "sleep 100 &" pid

/-- Shell steps: fifteen background launches (pids 100..114), pid 101 exits,
two more background launches (pids 200 and 201), and pid 201 is stopped by
signal 20. -/
def dup_trace : List event :=
  (List.range 15).map (fun i => launch_bg (100 + (i : Int)))
    ++ [.sigchld [(101, .exited 0)], launch_bg 200, launch_bg 201,
        .sigchld [(201, .stopped 20)]]

/-- The globals after `dup_trace`. -/
def dup_table : globals :=
  match run init_shell dup_trace with
  | some s => s.g
  | none => init

/-- The content of `tok` that the line `ls` leaves behind. -/
def tok_after_ls : cmdline_tokens :=
  { argv := ["ls"], infile := none, outfile := none, builtins := .BUILTIN_NONE }

/-- Shell steps: sixteen background launches (pids 100..115) fill the table,
and one more command is launched with pid 116. -/
def full_trace : List event :=
  (List.range 16).map (fun i => launch_bg (100 + (i : Int))) ++ [launch_bg 116]

/-- Shell steps: the pids 6 and 7 are launched in the background (job ids 1
and 2) and both are stopped by signal 20.  The line `fg %1` is given; after
`eval` has seen job 1 stopped and before it assigns `FG`, the handler
collects "6 terminated by signal 9" and clears the slot.  The wait ends at
once, because `fgpid` returns the pid 0 of that slot.  The line `fg %2` puts
pid 7 in the foreground, and its wait ends at once for the same reason.
The line `sleep 100` is then launched in the foreground with pid 8. -/
def race_trace : List event :=
  [ launch_bg 6, launch_bg 7,
    .sigchld [(6, .stopped 20)], .sigchld [(7, .stopped 20)],
    .line_cut fg_one "fg %1" [(6, .signaled 9)],
    .resume,
    .line fg_two 0 "fg %2" 0,
    .resume,
    .line sleep_tok 0 "sleep 100" 8 ]

/-- The globals after `race_trace`. -/
def race_table : globals :=
  match run init_shell race_trace with
  | some s => s.g
  | none => init

/-- The line `bg "" 2`: the second token is an empty quoted string (the
double quote has code 34). -/
def empty_arg_line : String :=
  String.mk ['b', 'g', ' ', Char.ofNat 34, Char.ofNat 34, ' ', '2']

theorem findIdx?_some_getElem? {α : Type} {p : α → Bool} {xs : List α} {i : Nat}
    (h : xs.findIdx? p = some i) :
    ∃ a, xs[i]? = some a ∧ p a = true ∧ ∀ k b, k < i → xs[k]? = some b → p b = false := by
  obtain ⟨hi, hp, hlt⟩ := List.findIdx?_eq_some_iff_getElem.mp h
  refine ⟨xs[i], List.getElem?_eq_getElem hi, hp, ?_⟩
  intro k b hk hb
  have hkl : k < xs.length := Nat.lt_trans hk hi
  rw [List.getElem?_eq_getElem hkl] at hb
  cases hb
  simpa using hlt k hk

/-! ## Job list: the claims -/

/-- C1 (the code at the failing input): the call sequence `wrap_ops` is
admissible from the initialised table (every added pid is positive and new),
yet afterwards the live jobs with pids 100 and 201 both carry job id 1, so
the job ids of the live jobs are not pairwise distinct. -/
theorem addjob_wrap_duplicates_jid :
    admissible init wrap_ops = true ∧
    (run_ops init wrap_ops).job_list.map (fun j => (j.pid, j.jid)) =
      [(100, 1), (200, 16), (102, 3), (103, 4), (104, 5), (105, 6), (106, 7), (107, 8),
       (108, 9), (109, 10), (110, 11), (111, 12), (112, 13), (113, 14), (114, 15), (201, 1)] ∧
    ¬ (live_jids (run_ops init wrap_ops).job_list).Nodup := by
  decide

/-- C3 (the code at the failing input): in `gap_table` (pids 5 and 6 were
launched and pid 5 deleted, which left the global `max` at 2) the only live
job is pid 6 with job id 2; `deletejob(6)` empties the table and sets
`nextjid` to 3, the stale `max` plus one, not to 1. -/
theorem deletejob_stale_max :
    gap_table.max = 2 ∧ live_jids gap_table.job_list = [2] ∧
    deletejob gap_table 6 = (1, { job_list := initjobs, nextjid := 3, max := 2 }) ∧
    live_jids (deletejob gap_table 6).2.job_list = [] := by
  decide

/-- C4: when `pid <= 0`, or when no slot of the 16-slot table is empty,
`addjob` returns 0 and the globals (every slot, `nextjid` and `max`) are
exactly what they were. -/
theorem addjob_failure_atomic (g : globals) (pid state : Int) (cmdline : String)
    (_hlen : g.job_list.length = MAXJOBS)
    (h : pid ≤ 0 ∨ ∀ j ∈ g.job_list, j.pid ≠ 0) :
    addjob g pid state cmdline = (0, g) := by
  unfold addjob
  rcases h with h | h
  · rw [if_pos (by omega)]
  · have hnone : g.job_list.findIdx? (fun j => j.pid == 0) = none := by
      rw [List.findIdx?_eq_none_iff]
      intro x hx
      simpa using h x hx
    rw [hnone]
    split <;> rfl

/-- C5: with `pid > 0` and an empty slot in the 16-slot table, `addjob`
returns 1, writes `(pid, state, cmdline)` with `jid` the old `nextjid` into
the lowest-index empty slot `i`, leaves every other slot as it was, and sets
`nextjid` to the old value plus one, or to 1 when that exceeds `MAXJOBS`. -/
theorem addjob_success (g : globals) (pid state : Int) (cmdline : String)
    (_hlen : g.job_list.length = MAXJOBS) (hpid : 0 < pid)
    (hempty : ∃ j ∈ g.job_list, j.pid = 0) :
    ∃ i old, g.job_list[i]? = some old ∧ old.pid = 0 ∧
      (∀ k b, k < i → g.job_list[k]? = some b → b.pid ≠ 0) ∧
      addjob g pid state cmdline =
        (1, { job_list := g.job_list.set i
                { pid := pid, jid := g.nextjid, state := state, cmdline := cmdline }
              nextjid := if g.nextjid + 1 > 16 then 1 else g.nextjid + 1
              max := g.max }) := by
  obtain ⟨j, hj, hj0⟩ := hempty
  have hsome : ∃ i, g.job_list.findIdx? (fun j => j.pid == 0) = some i := by
    cases hf : g.job_list.findIdx? (fun j => j.pid == 0) with
    | some i => exact ⟨i, rfl⟩
    | none =>
      rw [List.findIdx?_eq_none_iff] at hf
      have := hf j hj
      simp [hj0] at this
  obtain ⟨i, hi⟩ := hsome
  obtain ⟨old, hold, hp, hlt⟩ := findIdx?_some_getElem? hi
  refine ⟨i, old, hold, by simpa using hp, ?_, ?_⟩
  · intro k b hk hb
    simpa using hlt k b hk hb
  · unfold addjob
    rw [if_neg (by omega), hi]
    simp [MAXJOBS]

/-- C4 at concrete inputs: `addjob` with pid 0 on the initialised table, and
`addjob` with pid 99 on the full table, both return 0 and change nothing. -/
theorem addjob_failure_atomic_witness :
    (init.job_list.length = MAXJOBS ∧ addjob init 0 FG "ls" = (0, init)) ∧
    (full_table.job_list.length = MAXJOBS ∧ (∀ j ∈ full_table.job_list, j.pid ≠ 0) ∧
      addjob full_table 99 BG "ls &" = (0, full_table)) :=
  ⟨⟨by decide, addjob_failure_atomic init 0 FG "ls" (by decide) (Or.inl (by decide))⟩,
   ⟨by decide, by decide,
    addjob_failure_atomic full_table 99 BG "ls &" (by decide) (Or.inr (by decide))⟩⟩

/-- C5 at a concrete input: `addjob(7, BG, "c &")` on `gap_table`. -/
theorem addjob_success_witness :
    gap_table.job_list.length = MAXJOBS ∧ (0 : Int) < 7 ∧
    (∃ j ∈ gap_table.job_list, j.pid = 0) ∧
    ∃ i old, gap_table.job_list[i]? = some old ∧ old.pid = 0 ∧
      (∀ k b, k < i → gap_table.job_list[k]? = some b → b.pid ≠ 0) ∧
      addjob gap_table 7 BG "c &" =
        (1, { job_list := gap_table.job_list.set i
                { pid := 7, jid := gap_table.nextjid, state := BG, cmdline := "c &" }
              nextjid := if gap_table.nextjid + 1 > 16 then 1 else gap_table.nextjid + 1
              max := gap_table.max }) :=
  ⟨by decide, by decide, by decide,
   addjob_success gap_table 7 BG "c &" (by decide) (by decide) (by decide)⟩

/-! ## Listing and reaping: lemmas -/

theorem listjobs_loop_eq (jl : List job_t) : ∀ (i : Nat) (out : List String),
    listjobs_loop i jl out =
      out ++ (((jl.enumFrom i).filter (fun p => live p.2)).map
        (fun p => listjobs_writes p.1 p.2)).flatten := by
  induction jl with
  | nil => intro i out; simp [listjobs_loop]
  | cons j rest ih =>
    intro i out
    by_cases hj : j.pid = 0
    · simp [listjobs_loop, List.enumFrom_cons, live, hj, ih]
    · simp [listjobs_loop, List.enumFrom_cons, live, hj, ih]

theorem getElem?_modify_other {α : Type} (f : α → α) (l : List α) (i k : Nat) (h : k ≠ i) :
    (l.modify f i)[k]? = l[k]? := by
  rw [List.getElem?_modify]
  simp [Ne.symm h]

theorem getElem?_modify_same {α : Type} (f : α → α) (l : List α) (i : Nat) (a : α)
    (h : l[i]? = some a) : (l.modify f i)[i]? = some (f a) := by
  rw [List.getElem?_modify]
  simp [h]

theorem findIdx?_isSome_of_mem {α : Type} {p : α → Bool} {xs : List α} {x : α}
    (hx : x ∈ xs) (hp : p x = true) : ∃ i, xs.findIdx? p = some i := by
  cases hf : xs.findIdx? p with
  | some i => exact ⟨i, rfl⟩
  | none =>
    rw [List.findIdx?_eq_none_iff] at hf
    rw [hf x hx] at hp
    cases hp

/-! ## Listing and reaping: the claims -/

/-- C6 (the claim fails): after `addjob(1234, BG, "sleep 5 &")` on the
initialised table, `listjobs` writes `[1] (1234) Running    sleep 5 &`: four
blanks follow the label `Running` before the command text, so the line is not
`[1] (1234) Running sleep 5 &`, the form of the claim with its single
blanks. -/
theorem listing_label_is_padded :
    String.join (listjobs (addjob init 1234 BG "sleep 5 &").2.job_list)
      = "[1] (1234) Running    sleep 5 &\n" ∧
    String.join (listjobs (addjob init 1234 BG "sleep 5 &").2.job_list)
      ≠ "[1] (1234) Running sleep 5 &\n" := by
  decide

/-- C6 (as amended): `addjob(pid, BG, text)` on the initialised table
followed by `listjobs` writes one entry, `[1] (<pid>) Running    <text>` and
a newline; and for every job list `listjobs` writes, for each slot whose pid
is not 0 and in slot order, the three pieces `[<jid>] (<pid>) `, the label
(`Running    ` for `BG`, `Foreground ` for `FG`, `Stopped    ` for `ST`, each
eleven characters, and an error text for any other state) and the command
text with a newline, and nothing else. -/
theorem add_then_list (pid : Int) (text : String) (hpid : 0 < pid) :
    listjobs (addjob init pid BG text).2.job_list
      = ["[1] (" ++ toString pid ++ ") ", "Running    ", text ++ "\n"] ∧
    String.join (listjobs (addjob init pid BG text).2.job_list)
      = "[1] (" ++ toString pid ++ ") Running    " ++ text ++ "\n" ∧
    ∀ jl : List job_t,
      listjobs jl = (((jl.enum).filter (fun p => p.2.pid != 0)).map
        (fun p =>
          [ "[" ++ toString p.2.jid ++ "] (" ++ toString p.2.pid ++ ") ",
            (if p.2.state = BG then "Running    "
             else if p.2.state = FG then "Foreground "
             else if p.2.state = ST then "Stopped    "
             else "listjobs: Internal error: job[" ++ toString p.1 ++ "].state="
                    ++ toString p.2.state ++ " "),
            p.2.cmdline ++ "\n" ])).flatten := by
  have hne : pid ≠ 0 := by omega
  have h1 : listjobs (addjob init pid BG text).2.job_list
      = ["[1] (" ++ toString pid ++ ") ", "Running    ", text ++ "\n"] := by
    have hadd : (addjob init pid BG text).2.job_list
        = { pid := pid, jid := 1, state := BG, cmdline := text } :: List.replicate 15 (clearjob ⟨0, 0, 0, ""⟩) := by
      unfold addjob
      rw [if_neg (by omega)]
      rfl
    rw [hadd]
    simp [listjobs, listjobs_loop, hne, listjobs_writes, state_label, List.replicate, clearjob]
    rfl
  refine ⟨h1, ?_, ?_⟩
  · rw [h1]
    simp [String.join, String.append_assoc]
  · intro jl
    rw [listjobs, listjobs_loop_eq]
    simp only [List.nil_append, List.enum]
    congr 1
    apply List.map_congr_left
    intro p _
    simp only [listjobs_writes, state_label, beq_iff_eq]

/-- C6 (as amended) at a concrete input: pid 1234 and the line `sleep 5 &`. -/
theorem add_then_list_witness :
    (0 : Int) < 1234 ∧
    (listjobs (addjob init 1234 BG "sleep 5 &").2.job_list
      = ["[1] (" ++ toString (1234 : Int) ++ ") ", "Running    ", "sleep 5 &" ++ "\n"] ∧
    String.join (listjobs (addjob init 1234 BG "sleep 5 &").2.job_list)
      = "[1] (" ++ toString (1234 : Int) ++ ") Running    " ++ "sleep 5 &" ++ "\n" ∧
    ∀ jl : List job_t,
      listjobs jl = (((jl.enum).filter (fun p => p.2.pid != 0)).map
        (fun p =>
          [ "[" ++ toString p.2.jid ++ "] (" ++ toString p.2.pid ++ ") ",
            (if p.2.state = BG then "Running    "
             else if p.2.state = FG then "Foreground "
             else if p.2.state = ST then "Stopped    "
             else "listjobs: Internal error: job[" ++ toString p.1 ++ "].state="
                    ++ toString p.2.state ++ " "),
            p.2.cmdline ++ "\n" ])).flatten) :=
  ⟨by decide, add_then_list 1234 "sleep 5 &" (by decide)⟩

/-- C7: for a collected status of a child `pid > 0` that is in the table,
the handler, run on that one status, clears the first slot holding `pid`
when the child was terminated by a signal or exited, and only sets that
slot's state to `ST` (same pid, jid and command text) when the child was
stopped by a signal (number not 0); every other slot is as it was. -/
theorem sigchld_classifies (g : globals) (pid : Int) (status : wstatus)
    (_hlen : g.job_list.length = MAXJOBS) (hpid : 0 < pid)
    (hin : ∃ j ∈ g.job_list, j.pid = pid)
    (hsig : ∀ sig, status = .stopped sig → sig ≠ 0) :
    ∃ (i : Nat) (old : job_t) (r : globals), g.job_list[i]? = some old ∧ old.pid = pid ∧
      (∀ (k : Nat) (b : job_t), k < i → g.job_list[k]? = some b → b.pid ≠ pid) ∧
      sigchld_handler g [(pid, status)] = some (r, []) ∧
      (∀ k, k ≠ i → r.job_list[k]? = g.job_list[k]?) ∧
      r.job_list[i]? = some
        (match status with
         | .stopped _ => job_t.mk old.pid old.jid ST old.cmdline
         | .signaled _ => job_t.mk 0 0 UNDEF ""
         | .exited _ => job_t.mk 0 0 UNDEF "") := by
  obtain ⟨j, hj, hjp⟩ := hin
  obtain ⟨i, hi⟩ := findIdx?_isSome_of_mem (p := fun j => j.pid == pid) hj (by simp [hjp])
  obtain ⟨old, hold, hp, hlt⟩ := findIdx?_some_getElem? hi
  have hdel : (deletejob g pid).2.job_list = g.job_list.modify clearjob i := by
    unfold deletejob
    rw [if_neg (by omega), hi]
  have hget : getjobpid g.job_list pid = some i := by
    unfold getjobpid
    rw [if_neg (by omega), hi]
  have hfirst : ∀ k b, k < i → g.job_list[k]? = some b → b.pid ≠ pid := by
    intro k b hk hb
    simpa using hlt k b hk hb
  have hpo : old.pid = pid := by simpa using hp
  cases status with
  | exited code =>
    refine ⟨i, old, (deletejob g pid).2, hold, hpo, hfirst, ?_, ?_, ?_⟩
    · simp [sigchld_handler, hpid, WIFSIGNALED, WIFSTOPPED]
    · intro k hk
      rw [hdel]
      exact getElem?_modify_other _ _ _ _ hk
    · rw [hdel, getElem?_modify_same _ _ _ _ hold]
      rfl
  | signaled sig =>
    refine ⟨i, old, (deletejob g pid).2, hold, hpo, hfirst, ?_, ?_, ?_⟩
    · by_cases h0 : sig = 0
      · simp [sigchld_handler, hpid, WIFSIGNALED, WIFSTOPPED, WTERMSIG, h0]
      · simp [sigchld_handler, hpid, WIFSIGNALED, WTERMSIG, h0]
    · intro k hk
      rw [hdel]
      exact getElem?_modify_other _ _ _ _ hk
    · rw [hdel, getElem?_modify_same _ _ _ _ hold]
      rfl
  | stopped sig =>
    have h0 : sig ≠ 0 := hsig sig rfl
    refine ⟨i, old, { g with job_list := g.job_list.modify (set_state ST) i },
      hold, hpo, hfirst, ?_, ?_, ?_⟩
    · simp [sigchld_handler, hpid, WIFSIGNALED, WIFSTOPPED, WSTOPSIG, h0, hget]
    · intro k hk
      exact getElem?_modify_other _ _ _ _ hk
    · show (g.job_list.modify (set_state ST) i)[i]? = _
      rw [getElem?_modify_same _ _ _ _ hold]
      rfl

/-- C7 at a concrete input: in `two_jobs` the status "6 stopped by signal
20" is collected. -/
theorem sigchld_classifies_witness :
    two_jobs.job_list.length = MAXJOBS ∧ (0 : Int) < 6 ∧
    (∃ j ∈ two_jobs.job_list, j.pid = 6) ∧
    ∃ (i : Nat) (old : job_t) (r : globals), two_jobs.job_list[i]? = some old ∧ old.pid = 6 ∧
      (∀ (k : Nat) (b : job_t), k < i → two_jobs.job_list[k]? = some b → b.pid ≠ 6) ∧
      sigchld_handler two_jobs [(6, .stopped 20)] = some (r, []) ∧
      (∀ k, k ≠ i → r.job_list[k]? = two_jobs.job_list[k]?) ∧
      r.job_list[i]? = some (job_t.mk old.pid old.jid ST old.cmdline) :=
  ⟨by decide, by decide, by decide,
   sigchld_classifies two_jobs 6 (.stopped 20) (by decide) (by decide) (by decide)
     (fun sig h => by cases h; decide)⟩

/-- C8 (the code at the failing input): in `two_jobs`, with the jobs 5 and 6
in the table and the statuses "5 stopped by signal 20" and "6 exited" both available, one
run of the handler marks 5 stopped and returns: the status of 6 is left
uncollected and 6 stays in the table, while the per-status effect applied to
both removes it.  With the two statuses in the other order the same run
collects both. -/
theorem sigchld_stop_leaves_batch :
    live_pids two_jobs.job_list = [5, 6] ∧
    (sigchld_handler two_jobs [(5, .stopped 20), (6, .exited 0)]).map
        (fun r => (live_pids r.1.job_list, r.2)) = some ([5, 6], [(6, .exited 0)]) ∧
    (reap_each two_jobs [(5, .stopped 20), (6, .exited 0)]).map
        (fun r => live_pids r.job_list) = some [5] ∧
    (sigchld_handler two_jobs [(6, .exited 0), (5, .stopped 20)]).map
        (fun r => (live_pids r.1.job_list, r.2)) = some ([5], []) := by
  decide

/-! ## Steps without a handler run inside `eval`: lemmas -/

theorem set_eq_modify {α : Type} (v : α) : ∀ (l : List α) (i : Nat),
    l.set i v = l.modify (fun _ => v) i := by
  intro l
  induction l with
  | nil => intro i; simp
  | cons a rest ih =>
    intro i
    cases i with
    | zero => simp
    | succ n => simp [ih]

theorem countP_modify_le {α : Type} (p : α → Bool) (f : α → α)
    (h : ∀ a, p (f a) = true → p a = true) : ∀ (l : List α) (i : Nat),
    (l.modify f i).countP p ≤ l.countP p := by
  intro l
  induction l with
  | nil => intro i; simp
  | cons a rest ih =>
    intro i
    cases i with
    | zero =>
      simp only [List.modify_zero_cons, List.countP_cons]
      by_cases hfa : p (f a) = true
      · simp [hfa, h a hfa]
      · simp [hfa]
    | succ n =>
      simp only [List.modify_succ_cons, List.countP_cons]
      have := ih n
      omega

theorem countP_modify_le_succ {α : Type} (p : α → Bool) (f : α → α) : ∀ (l : List α) (i : Nat),
    (l.modify f i).countP p ≤ l.countP p + 1 := by
  intro l
  induction l with
  | nil => intro i; simp
  | cons a rest ih =>
    intro i
    cases i with
    | zero =>
      simp only [List.modify_zero_cons, List.countP_cons]
      split <;> split <;> omega
    | succ n =>
      simp only [List.modify_succ_cons, List.countP_cons]
      have := ih n
      omega

theorem forall_mem_modify {α : Type} (P : α → Prop) (f : α → α) : ∀ (l : List α) (i : Nat),
    (∀ x ∈ l, P x) → (∀ a, l[i]? = some a → P (f a)) → ∀ x ∈ l.modify f i, P x := by
  intro l
  induction l with
  | nil => intro i _ _ x hx; simp at hx
  | cons a rest ih =>
    intro i hall hf x hx
    cases i with
    | zero =>
      simp only [List.modify_zero_cons, List.mem_cons] at hx
      rcases hx with hx | hx
      · subst hx; exact hf a (by simp)
      · exact hall x (by simp [hx])
    | succ n =>
      simp only [List.modify_succ_cons, List.mem_cons] at hx
      rcases hx with hx | hx
      · subst hx; exact hall _ (by simp)
      · exact ih n (fun y hy => hall y (by simp [hy])) (fun b hb => hf b (by simpa using hb)) x hx

theorem deletejob_job_list (g : globals) (pid : Int) :
    (deletejob g pid).2.job_list = g.job_list ∨
      ∃ i, (deletejob g pid).2.job_list = g.job_list.modify clearjob i := by
  unfold deletejob
  split
  · exact Or.inl rfl
  · split
    · exact Or.inr ⟨_, rfl⟩
    · exact Or.inl rfl

theorem deletejob_keeps (g : globals) (pid : Int) (hc : empty_cleared g.job_list) :
    empty_cleared (deletejob g pid).2.job_list ∧
      fg_count (deletejob g pid).2.job_list ≤ fg_count g.job_list := by
  rcases deletejob_job_list g pid with h | ⟨i, h⟩
  · rw [h]; exact ⟨hc, le_refl _⟩
  · rw [h]
    constructor
    · exact forall_mem_modify _ _ _ _ hc (fun a _ _ => ⟨rfl, rfl⟩)
    · exact countP_modify_le _ _ (fun a ha => by simp [clearjob, UNDEF, FG] at ha) _ _

theorem sigchld_handler_keeps : ∀ (avail : List (Int × wstatus)) (g : globals)
    (r : globals × List (Int × wstatus)),
    sigchld_handler g avail = some r → empty_cleared g.job_list →
    empty_cleared r.1.job_list ∧ fg_count r.1.job_list ≤ fg_count g.job_list := by
  intro avail
  induction avail with
  | nil =>
    intro g r h hc
    simp [sigchld_handler] at h
    subst h
    exact ⟨hc, le_refl _⟩
  | cons child rest ih =>
    intro g r h hc
    obtain ⟨pidchld, status⟩ := child
    have hdel := deletejob_keeps g pidchld hc
    unfold sigchld_handler at h
    split at h
    · split at h
      · obtain ⟨h1, h2⟩ := ih _ _ h hdel.1
        exact ⟨h1, le_trans h2 hdel.2⟩
      · split at h
        · split at h
          · rename_i a ha
            simp only [Option.some.injEq] at h
            subst h
            have hidx : g.job_list.findIdx? (fun j => j.pid == pidchld) = some a := by
              unfold getjobpid at ha
              split at ha
              · cases ha
              · exact ha
            obtain ⟨old, hold, hp, _⟩ := findIdx?_some_getElem? hidx
            constructor
            · refine forall_mem_modify _ _ _ _ hc ?_
              intro b hb hb0
              rw [hold] at hb
              cases hb
              have : old.pid = pidchld := by simpa using hp
              simp only [set_state] at hb0
              omega
            · exact countP_modify_le _ _ (fun b hb => by simp [set_state, ST, FG] at hb) _ _
          · cases h
        · obtain ⟨h1, h2⟩ := ih _ _ h hdel.1
          exact ⟨h1, le_trans h2 hdel.2⟩
    · simp only [Option.some.injEq] at h
      subst h
      exact ⟨hc, le_refl _⟩

theorem fgpid_zero_count (jl : List job_t) (hc : empty_cleared jl) (h : fgpid jl = 0) :
    fg_count jl = 0 := by
  unfold fgpid at h
  split at h
  · rename_i j hj
    have hmem := List.mem_of_find?_eq_some hj
    have hst := List.find?_some hj
    have := (hc j hmem h).2
    simp [this, UNDEF, FG] at hst
  · rename_i hnone
    rw [List.find?_eq_none] at hnone
    unfold fg_count
    rw [List.countP_eq_zero]
    exact hnone

theorem addjob_keeps (g : globals) (pid state : Int) (cmdline : String)
    (hc : empty_cleared g.job_list) :
    empty_cleared (addjob g pid state cmdline).2.job_list ∧
      fg_count (addjob g pid state cmdline).2.job_list ≤ fg_count g.job_list + 1 ∧
      (state ≠ FG →
        fg_count (addjob g pid state cmdline).2.job_list ≤ fg_count g.job_list) := by
  unfold addjob
  split
  · exact ⟨hc, Nat.le_succ _, fun _ => le_refl _⟩
  · rename_i hpid
    split
    · rename_i i hi
      simp only [set_eq_modify]
      refine ⟨?_, ?_, ?_⟩
      · refine forall_mem_modify _ _ _ _ hc ?_
        intro a _ h0
        simp only at h0
        omega
      · exact countP_modify_le_succ _ _ _ _
      · intro hst
        exact countP_modify_le _ _ (fun a ha => by simp [hst] at ha) _ _
    · exact ⟨hc, Nat.le_succ _, fun _ => le_refl _⟩

theorem eval_jobctl_keeps (g : globals) (id target : Int) (wait : Bool)
    (hc : empty_cleared g.job_list) (g1 : globals)
    (h : outcome_globals (eval_jobctl g id target wait) = some g1) :
    empty_cleared g1.job_list ∧ fg_count g1.job_list ≤ fg_count g.job_list + 1 ∧
      (target ≠ FG → fg_count g1.job_list ≤ fg_count g.job_list) := by
  have hsame : empty_cleared g.job_list ∧ fg_count g.job_list ≤ fg_count g.job_list + 1 ∧
      (target ≠ FG → fg_count g.job_list ≤ fg_count g.job_list) :=
    ⟨hc, Nat.le_succ _, fun _ => le_refl _⟩
  have hmod : ∀ a, (g.job_list[a]?.map (fun j => j.state)) = some ST →
      empty_cleared (g.job_list.modify (set_state target) a) ∧
      fg_count (g.job_list.modify (set_state target) a) ≤ fg_count g.job_list + 1 ∧
      (target ≠ FG →
        fg_count (g.job_list.modify (set_state target) a) ≤ fg_count g.job_list) := by
    intro a hst
    refine ⟨?_, countP_modify_le_succ _ _ _ _, ?_⟩
    · refine forall_mem_modify _ _ _ _ hc ?_
      intro b hb hb0
      rw [hb] at hst
      simp only [Option.map_some', Option.some.injEq] at hst
      have hmem : b ∈ g.job_list := List.getElem?_mem hb
      have := (hc b hmem (by simpa [set_state] using hb0)).2
      rw [this] at hst
      simp [UNDEF, ST] at hst
    · intro hne
      exact countP_modify_le _ _ (fun b hb => by simp [set_state, hne] at hb) _ _
  unfold eval_jobctl at h
  split at h
  · rename_i a _
    split at h
    · rename_i hst
      split at h <;>
      · simp only [outcome_globals, Option.some.injEq] at h
        subst h
        exact hmod a hst
    · simp only [outcome_globals, Option.some.injEq] at h
      subst h
      exact hsame
  · simp only [outcome_globals, Option.some.injEq] at h
    subst h
    exact hsame

theorem eval_jobctl_returned (g : globals) (id target : Int) (g1 : globals)
    (h : eval_jobctl g id target true = .returned g1) : g1 = g := by
  unfold eval_jobctl at h
  split at h
  · split at h
    · simp at h
    · simp only [eval_outcome.returned.injEq] at h
      exact h.symm
  · simp only [eval_outcome.returned.injEq] at h
    exact h.symm

theorem eval_keeps (g : globals) (tok : cmdline_tokens) (bg : Int) (cmdline : String)
    (pid : Int) (hc : empty_cleared g.job_list) (h0 : fg_count g.job_list = 0) :
    (∀ g1, eval g tok bg cmdline pid = .returned g1 →
      empty_cleared g1.job_list ∧ fg_count g1.job_list = 0) ∧
    (∀ g1, eval g tok bg cmdline pid = .waiting g1 →
      empty_cleared g1.job_list ∧ fg_count g1.job_list ≤ 1) := by
  have hctl : ∀ id target wait g1,
      outcome_globals (eval_jobctl g id target wait) = some g1 →
      empty_cleared g1.job_list ∧ fg_count g1.job_list ≤ 1 ∧
        (target ≠ FG → fg_count g1.job_list = 0) := by
    intro id target wait g1 h
    obtain ⟨h1, h2, h3⟩ := eval_jobctl_keeps g id target wait hc g1 h
    refine ⟨h1, by omega, fun hne => ?_⟩
    have := h3 hne
    omega
  unfold eval
  cases hb : tok.builtins with
  | BUILTIN_FG =>
    dsimp only
    cases tok.argv[1]? with
    | none => simp
    | some arg =>
      dsimp only
      constructor
      · intro g1 h
        have := eval_jobctl_returned g (job_arg arg cmdline) FG g1 h
        subst this
        exact ⟨hc, h0⟩
      · intro g1 h
        have := hctl (job_arg arg cmdline) FG true g1 (by rw [h]; rfl)
        exact ⟨this.1, this.2.1⟩
  | BUILTIN_BG =>
    dsimp only
    cases tok.argv[1]? with
    | none => simp
    | some arg =>
      dsimp only
      constructor
      · intro g1 h
        have := hctl (job_arg arg cmdline) BG false g1 (by rw [h]; rfl)
        exact ⟨this.1, this.2.2 (by decide)⟩
      · intro g1 h
        have := hctl (job_arg arg cmdline) BG false g1 (by rw [h]; rfl)
        exact ⟨this.1, this.2.1⟩
  | BUILTIN_QUIT => simp
  | BUILTIN_JOBS =>
    simp only [eval_outcome.returned.injEq, reduceCtorEq, false_implies, implies_true, and_true]
    intro g1 h
    subst h
    exact ⟨hc, h0⟩
  | BUILTIN_NONE =>
    simp only
    by_cases hbg : bg = 0
    · subst hbg
      simp only [bne_self_eq_false, Bool.false_eq_true, if_false, beq_self_eq_true, if_true,
        reduceCtorEq, false_implies, implies_true, true_and, eval_outcome.waiting.injEq]
      intro g1 h
      subst h
      obtain ⟨h1, h2, _⟩ := addjob_keeps g pid FG cmdline hc
      exact ⟨h1, by omega⟩
    · have hne : (bg != 0) = true := by simpa using hbg
      have heq : (bg == 0) = false := by simpa using hbg
      simp only [hne, heq, if_true, Bool.false_eq_true, if_false, reduceCtorEq, false_implies,
        implies_true, and_true, eval_outcome.returned.injEq]
      intro g1 h
      subst h
      obtain ⟨h1, _, h3⟩ := addjob_keeps g pid BG cmdline hc
      have := h3 (by decide)
      exact ⟨h1, by omega⟩

theorem step_keeps (s s1 : shell) (e : event) (hu : uninterrupted e = true)
    (hinv : shell_inv s) (h : step s e = some s1) : shell_inv s1 := by
  obtain ⟨hc, h1, h0⟩ := hinv
  cases e with
  | line tok bg cmdline pid =>
    simp only [step] at h
    split at h
    · cases h
    · rename_i hw
      have hw0 : s.waiting = false := by simpa using hw
      obtain ⟨hret, hwait⟩ := eval_keeps s.g tok bg cmdline pid hc (h0 hw0)
      split at h
      · rename_i g1 heq
        simp only [Option.some.injEq] at h
        subst h
        obtain ⟨a, b⟩ := hret g1 heq
        exact ⟨a, by simp only; omega, fun _ => b⟩
      · rename_i g1 heq
        simp only [Option.some.injEq] at h
        subst h
        obtain ⟨a, b⟩ := hwait g1 heq
        exact ⟨a, b, fun hf => by simp at hf⟩
      · cases h
      · cases h
  | sigchld avail =>
    simp only [step] at h
    split at h
    · rename_i r hr
      simp only [Option.some.injEq] at h
      subst h
      obtain ⟨a, b⟩ := sigchld_handler_keeps avail s.g r hr hc
      exact ⟨a, le_trans b h1, fun hw => by have := h0 hw; simp only at *; omega⟩
    · cases h
  | resume =>
    simp only [step] at h
    split at h
    · rename_i hcond
      simp only [Option.some.injEq] at h
      subst h
      simp only [Bool.and_eq_true, beq_iff_eq] at hcond
      have hz := fgpid_zero_count s.g.job_list hc hcond.2
      exact ⟨hc, h1, fun _ => hz⟩
    · cases h
  | line_cut tok cmdline avail =>
    simp [uninterrupted] at hu

theorem run_keeps : ∀ (es : List event) (s s1 : shell),
    (∀ e ∈ es, uninterrupted e = true) → shell_inv s → run s es = some s1 →
    shell_inv s1 := by
  intro es
  induction es with
  | nil =>
    intro s s1 _ hinv h
    simp only [run, Option.some.injEq] at h
    subst h
    exact hinv
  | cons e rest ih =>
    intro s s1 hu hinv h
    simp only [run] at h
    cases hs : step s e with
    | none => rw [hs] at h; cases h
    | some s2 =>
      rw [hs] at h
      exact ih s2 s1 (fun x hx => hu x (List.mem_cons_of_mem _ hx))
        (step_keeps s s2 e (hu e (List.mem_cons_self _ _)) hinv hs) h

theorem init_shell_inv : shell_inv init_shell := by
  refine ⟨?_, by decide, fun _ => by decide⟩
  intro j hj _
  have : j = clearjob ⟨0, 0, 0, ""⟩ := by
    simp only [init_shell, init, initjobs] at hj
    exact List.eq_of_mem_replicate hj
  subst this
  exact ⟨rfl, rfl⟩

/-! ## Foreground jobs: the claim -/

theorem one_foreground_uninterrupted (es : List event) (s : shell)
    (hu : ∀ e ∈ es, uninterrupted e = true) (h : run init_shell es = some s) :
    fg_count s.g.job_list ≤ 1 ∧ (s.waiting = false → fg_count s.g.job_list = 0) := by
  have := run_keeps es init_shell s hu init_shell_inv h
  exact ⟨this.2.1, this.2.2⟩

/-- C2 (the code at the failing input): the shell takes the steps of
`race_trace` from the initialised table: two background launches (pids 6 and
7), both children stop, then `fg %1`, in which the handler runs between the
test `fg->state == ST` and the assignment `fg->state = FG` (that branch of
`eval` does not block SIGCHLD) and removes job 1, whose child was killed.
The assignment then leaves slot 0 empty (pid 0) in state `FG`, and `fgpid`
returns 0 as long as it is there: the wait of `fg %1` ends, `fg %2` puts pid
7 in state `FG` and its wait ends at once, and the next foreground launch
(pid 8) takes slot 0.  The live jobs with pids 8 and 7 are then both in state
`FG`. -/
theorem two_foreground_jobs :
    (run init_shell (race_trace.take 5)).map
        (fun s => (s.g.job_list.take 2, fgpid s.g.job_list, s.waiting))
      = some ([⟨0, 0, FG, ""⟩, ⟨7, 2, ST, "sleep 100 &"⟩], 0, true) ∧
    run init_shell race_trace = some { g := race_table, waiting := true } ∧
    race_table.job_list.take 2 = [⟨8, 3, FG, "sleep 100"⟩, ⟨7, 2, FG, "sleep 100 &"⟩] ∧
    fg_pids race_table.job_list = [8, 7] ∧
    fg_count race_table.job_list = 2 := by
  decide

/-! ## The job argument: lemmas -/

theorem digitChar_facts : ∀ k, k < 10 →
    isspace (Nat.digitChar k) = false ∧ (Nat.digitChar k == '-') = false ∧
    (Nat.digitChar k == '+') = false ∧ (Nat.digitChar k).isDigit = true ∧
    ((Nat.digitChar k).toNat : Int) - 48 = (k : Int) := by
  decide

theorem atoi_digits_toDigitsCore : ∀ (fuel n : Nat) (ds : List Char), n < fuel →
    atoi_digits 0 (Nat.toDigitsCore 10 fuel n ds) = atoi_digits (n : Int) ds := by
  intro fuel
  induction fuel with
  | zero => intro n ds h; omega
  | succ f ih =>
    intro n ds h
    have hk : n % 10 < 10 := Nat.mod_lt _ (by decide)
    obtain ⟨_, _, _, hd, hv⟩ := digitChar_facts (n % 10) hk
    simp only [Nat.toDigitsCore]
    split
    · rename_i h0
      have hn : n % 10 = n := by omega
      rw [hn] at hd hv
      simp only [atoi_digits, hn, hd, if_true, hv]
      simp
    · rename_i h0
      have hlt : n / 10 < f := by omega
      rw [ih (n / 10) _ hlt]
      simp only [atoi_digits, hd, if_true, hv]
      congr 1
      have := Nat.div_add_mod n 10
      push_cast
      omega

theorem toDigitsCore_head : ∀ (fuel n : Nat) (ds : List Char),
    (∃ k, k < 10 ∧ ∃ r, ds = Nat.digitChar k :: r) →
    ∃ k, k < 10 ∧ ∃ r, Nat.toDigitsCore 10 fuel n ds = Nat.digitChar k :: r := by
  intro fuel
  induction fuel with
  | zero => intro n ds h; simpa [Nat.toDigitsCore] using h
  | succ f ih =>
    intro n ds _
    have hk : n % 10 < 10 := Nat.mod_lt _ (by decide)
    simp only [Nat.toDigitsCore]
    split
    · exact ⟨n % 10, hk, ds, rfl⟩
    · exact ih _ _ ⟨n % 10, hk, ds, rfl⟩

theorem toDigits_head (n : Nat) :
    ∃ k, k < 10 ∧ ∃ r, Nat.toDigits 10 n = Nat.digitChar k :: r := by
  have hk : n % 10 < 10 := Nat.mod_lt _ (by decide)
  simp only [Nat.toDigits, Nat.toDigitsCore]
  split
  · exact ⟨n % 10, hk, [], rfl⟩
  · exact toDigitsCore_head _ _ _ ⟨n % 10, hk, [], rfl⟩

theorem strtol_toDigits (n : Nat) :
    strtol (Nat.toDigits 10 n) = if (n : Int) > LONG_MAX then LONG_MAX else (n : Int) := by
  obtain ⟨k, hk, r, hr⟩ := toDigits_head n
  obtain ⟨hs, hm, hp, _, _⟩ := digitChar_facts k hk
  have hval : atoi_digits 0 (Nat.toDigits 10 n) = (n : Int) := by
    have := atoi_digits_toDigitsCore (n + 1) n [] (Nat.lt_succ_self n)
    simpa [Nat.toDigits, atoi_digits] using this
  have hexact : (match (Nat.toDigits 10 n).dropWhile isspace with
      | [] => (0 : Int)
      | c :: cs =>
        if c == '-' then - atoi_digits 0 cs
        else if c == '+' then atoi_digits 0 cs
        else atoi_digits 0 (c :: cs)) = (n : Int) := by
    rw [hr, List.dropWhile_cons_of_neg (by simp [hs])]
    simp only [hm, hp, Bool.false_eq_true, if_false]
    rw [← hr]
    exact hval
  unfold strtol
  simp only [hexact]
  have hnn : (0 : Int) ≤ (n : Int) := Int.ofNat_nonneg n
  split
  · rfl
  · rw [if_neg]
    simp only [LONG_MIN]
    omega

theorem atoi_toDigits (n : Nat) (h : n < 2147483648) :
    atoi (Nat.toDigits 10 n) = (n : Int) := by
  unfold atoi
  rw [strtol_toDigits, if_neg (by simp only [LONG_MAX]; omega)]
  unfold long_to_int
  omega

theorem ptr_plus_one_cons (c : Char) (rest : List Char) (cmdline : String) :
    ptr_plus_one (String.mk (c :: rest)) cmdline = rest := rfl

theorem job_arg_cons (c : Char) (rest : List Char) (cmdline : String) :
    job_arg (String.mk (c :: rest)) cmdline = atoi rest := rfl

theorem job_arg_percent (n : Nat) (h : n < 2147483648) (cmdline : String) :
    job_arg ("%" ++ toString n) cmdline = (n : Int) := by
  have hl : ("%" ++ toString n).toList = '%' :: Nat.toDigits 10 n := by
    show ("%" ++ (Nat.toDigits 10 n).asString).data = _
    rw [String.data_append]
    rfl
  unfold job_arg ptr_plus_one
  rw [hl]
  exact atoi_toDigits n h

/-! ## `bg` and `fg`: lemmas -/

theorem modify_eq_set {α : Type} (f : α → α) : ∀ (l : List α) (i : Nat) (a : α),
    l[i]? = some a → l.modify f i = l.set i (f a) := by
  intro l
  induction l with
  | nil => intro i a h; simp at h
  | cons x rest ih =>
    intro i a h
    cases i with
    | zero =>
      simp only [List.getElem?_cons_zero, Option.some.injEq] at h
      subst h
      simp
    | succ n =>
      simp only [List.getElem?_cons_succ] at h
      simp [ih n a h]

theorem mem_live_jids (jl : List job_t) (j : job_t) (hj : j ∈ jl) (hp : j.pid ≠ 0) :
    j.jid ∈ live_jids jl := by
  simp only [live_jids, live, List.mem_map, List.mem_filter]
  exact ⟨j, ⟨hj, by simpa using hp⟩, rfl⟩

theorem live_jids_cons (x : job_t) (rest : List job_t) :
    live_jids (x :: rest) = if x.pid ≠ 0 then x.jid :: live_jids rest else live_jids rest := by
  by_cases h : x.pid = 0 <;> simp [live_jids, live, List.filter_cons, h]

theorem live_jids_index_unique : ∀ (jl : List job_t) (a b : Nat) (ja jb : job_t),
    (live_jids jl).Nodup → jl[a]? = some ja → jl[b]? = some jb →
    ja.pid ≠ 0 → jb.pid ≠ 0 → ja.jid = jb.jid → a = b := by
  intro jl
  induction jl with
  | nil => intro a b ja jb _ ha; simp at ha
  | cons x rest ih =>
    intro a b ja jb hnd ha hb hpa hpb hjid
    have hrest : (live_jids rest).Nodup := by
      rw [live_jids_cons] at hnd
      split at hnd
      · exact (List.nodup_cons.mp hnd).2
      · exact hnd
    cases a with
    | zero =>
      cases b with
      | zero => rfl
      | succ m =>
        exfalso
        simp only [List.getElem?_cons_zero, Option.some.injEq] at ha
        simp only [List.getElem?_cons_succ] at hb
        subst ha
        rw [live_jids_cons, if_pos hpa] at hnd
        have hmem := mem_live_jids rest jb (List.getElem?_mem hb) hpb
        rw [← hjid] at hmem
        exact (List.nodup_cons.mp hnd).1 hmem
    | succ n =>
      cases b with
      | zero =>
        exfalso
        simp only [List.getElem?_cons_zero, Option.some.injEq] at hb
        simp only [List.getElem?_cons_succ] at ha
        subst hb
        rw [live_jids_cons, if_pos hpb] at hnd
        have hmem := mem_live_jids rest ja (List.getElem?_mem ha) hpa
        rw [hjid] at hmem
        exact (List.nodup_cons.mp hnd).1 hmem
      | succ m =>
        simp only [List.getElem?_cons_succ] at ha hb
        rw [ih n m ja jb hrest ha hb hpa hpb hjid]

theorem getjobjid_some (jl : List job_t) (id : Int) (a : Nat) (h : getjobjid jl id = some a) :
    1 ≤ id ∧ ∃ ja, jl[a]? = some ja ∧ ja.jid = id := by
  unfold getjobjid at h
  split at h
  · cases h
  · rename_i hid
    obtain ⟨ja, hja, hp, _⟩ := findIdx?_some_getElem? h
    exact ⟨by omega, ja, hja, by simpa using hp⟩

theorem getjobjid_unique (jl : List job_t) (id : Int) (i : Nat) (j : job_t)
    (hpos : 1 ≤ id) (hclr : empty_cleared jl) (huniq : (live_jids jl).Nodup)
    (hi : jl[i]? = some j) (hlive : j.pid ≠ 0) (hjid : j.jid = id) :
    getjobjid jl id = some i := by
  obtain ⟨a, ha⟩ := findIdx?_isSome_of_mem (p := fun j => j.jid == id)
    (List.getElem?_mem hi) (by simp [hjid])
  have hget : getjobjid jl id = some a := by
    unfold getjobjid
    rw [if_neg (by omega), ha]
  obtain ⟨_, ja, hja, hjaid⟩ := getjobjid_some jl id a hget
  have hpa : ja.pid ≠ 0 := by
    intro h0
    have := (hclr ja (List.getElem?_mem hja) h0).1
    omega
  rw [hget, live_jids_index_unique jl a i ja j huniq hja hi hpa hlive (by rw [hjaid, hjid])]

/-! ## `bg` and `fg`: the claims -/

/-- C9 (the claim fails): the shell reaches `dup_table` by the steps of
`dup_trace`; there the live jobs in slot 0 (pid 100, running in the
background) and slot 15 (pid 201, stopped) both carry job id 1, and `bg %1`
looks at slot 0 only: the stopped job with job id 1 stays stopped and the
globals are unchanged. -/
theorem bg_misses_stopped_duplicate :
    run init_shell dup_trace = some { g := dup_table, waiting := false } ∧
    dup_table.job_list[0]? = some ⟨100, 1, BG, "sleep 100 &"⟩ ∧
    dup_table.job_list[15]? = some ⟨201, 1, ST, "sleep 100 &"⟩ ∧
    bg_one.argv[1]? = some ("%" ++ toString 1) ∧
    eval dup_table bg_one 0 "bg %1" 0 = .returned dup_table := by
  decide

/-- C9 (as amended): on a table that keeps the data-model invariants (empty
slots cleared, live job ids pairwise distinct), for the command `bg %N` or
`fg %N` with `1 <= N <= 2147483647` (a job id that fits the `int` that
`eval` stores it in): if a live job with job id `N` is in state `ST`, `eval`
changes exactly that slot's state, to `BG` for `bg` and to `FG` for `fg`, and
nothing else in the globals; if every live job with job id `N` (there may be
none) is in a state other than `ST`, `eval` returns with the globals as they
were. -/
theorem eval_bg_fg_transition (g : globals) (tok : cmdline_tokens) (bg : Int)
    (cmdline : String) (pid : Int) (N : Nat) (target : Int)
    (_hlen : g.job_list.length = MAXJOBS)
    (hcmd : (tok.builtins = .BUILTIN_BG ∧ target = BG) ∨
      (tok.builtins = .BUILTIN_FG ∧ target = FG))
    (harg : tok.argv[1]? = some ("%" ++ toString N)) (hpos : 1 ≤ N)
    (hmax : N ≤ 2147483647)
    (hclr : empty_cleared g.job_list) (huniq : (live_jids g.job_list).Nodup) :
    (∀ (i : Nat) (j : job_t), g.job_list[i]? = some j → j.pid ≠ 0 → j.jid = (N : Int) →
      j.state = ST →
      outcome_globals (eval g tok bg cmdline pid) =
        some { job_list := g.job_list.set i (job_t.mk j.pid j.jid target j.cmdline),
               nextjid := g.nextjid, max := g.max }) ∧
    ((∀ j ∈ g.job_list, j.pid ≠ 0 → j.jid = (N : Int) → j.state ≠ ST) →
      eval g tok bg cmdline pid = .returned g) := by
  have hposi : (1 : Int) ≤ (N : Int) := by exact_mod_cast hpos
  have heval : ∃ wait, eval g tok bg cmdline pid = eval_jobctl g (N : Int) target wait := by
    have hid : job_arg ("%" ++ toString N) cmdline = (N : Int) :=
      job_arg_percent N (by omega) cmdline
    rcases hcmd with ⟨hb, ht⟩ | ⟨hb, ht⟩
    · refine ⟨false, ?_⟩
      unfold eval
      simp only [hb, harg, hid, ht]
    · refine ⟨true, ?_⟩
      unfold eval
      simp only [hb, harg, hid, ht]
  obtain ⟨wait, hw⟩ := heval
  rw [hw]
  constructor
  · intro i j hi hlive hjid hst
    have hget := getjobjid_unique g.job_list (N : Int) i j hposi hclr huniq hi hlive hjid
    unfold eval_jobctl
    rw [hget]
    simp only [hi, Option.map_some', hst, if_true]
    rw [modify_eq_set _ _ _ _ hi]
    cases wait <;> rfl
  · intro hall
    unfold eval_jobctl
    split
    · rename_i a ha
      obtain ⟨_, ja, hja, hjaid⟩ := getjobjid_some _ _ _ ha
      have hmem := List.getElem?_mem hja
      have hpa : ja.pid ≠ 0 := by
        intro h0
        have := (hclr ja hmem h0).1
        omega
      have hns := hall ja hmem hpa hjaid
      simp [hja, hns]
    · rfl

/-- C9 (as amended) at a concrete input: `bg %2` in `one_stopped`, where job 2
(pid 6, slot 1) is stopped. -/
theorem eval_bg_fg_transition_witness :
    one_stopped.job_list.length = MAXJOBS ∧
    bg_two.argv[1]? = some ("%" ++ toString 2) ∧ 1 ≤ 2 ∧ 2 ≤ 2147483647 ∧
    empty_cleared one_stopped.job_list ∧ (live_jids one_stopped.job_list).Nodup ∧
    ((∀ (i : Nat) (j : job_t), one_stopped.job_list[i]? = some j → j.pid ≠ 0 →
      j.jid = ((2 : Nat) : Int) → j.state = ST →
      outcome_globals (eval one_stopped bg_two 0 "bg %2" 0) =
        some { job_list := one_stopped.job_list.set i (job_t.mk j.pid j.jid BG j.cmdline),
               nextjid := one_stopped.nextjid, max := one_stopped.max }) ∧
    ((∀ j ∈ one_stopped.job_list, j.pid ≠ 0 → j.jid = ((2 : Nat) : Int) → j.state ≠ ST) →
      eval one_stopped bg_two 0 "bg %2" 0 = .returned one_stopped)) :=
  ⟨by decide, by decide, by decide, by decide, by unfold empty_cleared; decide, by decide,
   eval_bg_fg_transition one_stopped bg_two 0 "bg %2" 0 2 BG (by decide)
     (Or.inl ⟨rfl, rfl⟩) (by decide) (by decide) (by decide)
     (by unfold empty_cleared; decide) (by decide)⟩

/-- C10 (as amended): for `bg` and `fg` the job id that `eval` looks up is
what `atoi` gives for the argument with its first character stepped over,
whatever that character is (`%` is not tested): when the rest is the decimal
numeral of `N`, as in `%N`, and `N <= 2147483647`, the id is `N`, and past
that bound it is the low 32 bits of `N`, or of `LONG_MAX`, read as an `int`.
The job selected is the first slot, in table order, whose job id equals that
id, if the id is at least 1: a stopped job gets the new state and nothing
else changes; in every other case the globals are unchanged. -/
theorem job_ref_lookup (g : globals) (tok : cmdline_tokens) (bg : Int) (cmdline : String)
    (pid : Int) (arg : String) (target : Int)
    (hcmd : (tok.builtins = .BUILTIN_BG ∧ target = BG) ∨
      (tok.builtins = .BUILTIN_FG ∧ target = FG))
    (harg : tok.argv[1]? = some arg) :
    (∀ (c : Char) (rest : List Char), arg = String.mk (c :: rest) →
      job_arg arg cmdline = atoi rest) ∧
    (∀ (c : Char) (N : Nat), arg = String.mk (c :: (toString N).toList) →
      (N ≤ 2147483647 → job_arg arg cmdline = (N : Int)) ∧
      job_arg arg cmdline =
        ((if (N : Int) > 9223372036854775807 then 9223372036854775807 else (N : Int))
            + 2147483648) % 4294967296 - 2147483648) ∧
    (∀ (i : Nat) (j : job_t), 1 ≤ job_arg arg cmdline →
      g.job_list[i]? = some j → j.jid = job_arg arg cmdline →
      (∀ (k : Nat) (b : job_t), k < i → g.job_list[k]? = some b →
        b.jid ≠ job_arg arg cmdline) →
      (j.state = ST →
        outcome_globals (eval g tok bg cmdline pid) =
          some { job_list := g.job_list.set i (job_t.mk j.pid j.jid target j.cmdline),
                 nextjid := g.nextjid, max := g.max }) ∧
      (j.state ≠ ST → eval g tok bg cmdline pid = .returned g)) ∧
    ((job_arg arg cmdline < 1 ∨ ∀ j ∈ g.job_list, j.jid ≠ job_arg arg cmdline) →
      eval g tok bg cmdline pid = .returned g) := by
  have heval : ∃ wait, eval g tok bg cmdline pid
      = eval_jobctl g (job_arg arg cmdline) target wait := by
    rcases hcmd with ⟨hb, ht⟩ | ⟨hb, ht⟩
    · refine ⟨false, ?_⟩
      unfold eval
      simp only [hb, harg, ht]
    · refine ⟨true, ?_⟩
      unfold eval
      simp only [hb, harg, ht]
  obtain ⟨wait, hw⟩ := heval
  refine ⟨?_, ?_, ?_, ?_⟩
  · intro c rest harg
    rw [harg]
    rfl
  · intro c N hN
    have hval : job_arg arg cmdline = atoi (Nat.toDigits 10 N) := by
      rw [hN]
      rfl
    constructor
    · intro hle
      rw [hval]
      exact atoi_toDigits N (by omega)
    · rw [hval]
      unfold atoi long_to_int
      rw [strtol_toDigits]
      rfl
  · intro i j hid hi hjid hfirst
    have hidx : g.job_list.findIdx? (fun j => j.jid == job_arg arg cmdline) = some i := by
      rw [List.findIdx?_eq_some_iff_getElem]
      obtain ⟨hlt, hget⟩ := List.getElem?_eq_some.mp hi
      refine ⟨hlt, ?_, ?_⟩
      · rw [hget]
        simpa using hjid
      · intro k hk
        have hkl : k < g.job_list.length := Nat.lt_trans hk hlt
        have := hfirst k g.job_list[k] hk (List.getElem?_eq_getElem hkl)
        simpa using this
    have hget : getjobjid g.job_list (job_arg arg cmdline) = some i := by
      unfold getjobjid
      rw [if_neg (by omega), hidx]
    rw [hw]
    unfold eval_jobctl
    rw [hget]
    constructor
    · intro hst
      simp only [hi, Option.map_some', hst, if_true]
      rw [modify_eq_set _ _ _ _ hi]
      cases wait <;> rfl
    · intro hst
      simp [hi, hst]
  · intro hno
    rw [hw]
    unfold eval_jobctl
    have hget : getjobjid g.job_list (job_arg arg cmdline) = none := by
      unfold getjobjid
      rcases hno with hlt | hall
      · rw [if_pos hlt]
      · split
        · rfl
        · rw [List.findIdx?_eq_none_iff]
          intro x hx
          simpa using hall x hx
    rw [hget]

/-- C10 (as amended) at concrete inputs: `bg %2` in `one_stopped`, where job 2
is stopped. -/
theorem job_ref_lookup_witness :
    bg_two.argv[1]? = some "%2" ∧
    ((∀ (c : Char) (rest : List Char), "%2" = String.mk (c :: rest) →
      job_arg "%2" "bg %2" = atoi rest) ∧
    (∀ (c : Char) (N : Nat), "%2" = String.mk (c :: (toString N).toList) →
      (N ≤ 2147483647 → job_arg "%2" "bg %2" = (N : Int)) ∧
      job_arg "%2" "bg %2" =
        ((if (N : Int) > 9223372036854775807 then 9223372036854775807 else (N : Int))
            + 2147483648) % 4294967296 - 2147483648) ∧
    (∀ (i : Nat) (j : job_t), 1 ≤ job_arg "%2" "bg %2" →
      one_stopped.job_list[i]? = some j → j.jid = job_arg "%2" "bg %2" →
      (∀ (k : Nat) (b : job_t), k < i → one_stopped.job_list[k]? = some b →
        b.jid ≠ job_arg "%2" "bg %2") →
      (j.state = ST →
        outcome_globals (eval one_stopped bg_two 0 "bg %2" 0) =
          some { job_list := one_stopped.job_list.set i (job_t.mk j.pid j.jid BG j.cmdline),
                 nextjid := one_stopped.nextjid, max := one_stopped.max }) ∧
      (j.state ≠ ST → eval one_stopped bg_two 0 "bg %2" 0 = .returned one_stopped)) ∧
    ((job_arg "%2" "bg %2" < 1 ∨ ∀ j ∈ one_stopped.job_list, j.jid ≠ job_arg "%2" "bg %2") →
      eval one_stopped bg_two 0 "bg %2" 0 = .returned one_stopped)) :=
  ⟨by decide,
   job_ref_lookup one_stopped bg_two 0 "bg %2" 0 "%2" BG (Or.inl ⟨rfl, rfl⟩) (by decide)⟩

/-- C10 (the claim fails): in `one_stopped` (job 2, pid 6, is stopped) the
argument `x2` does not begin with `%`, yet `bg x2` selects job 2 and moves it
to state `BG`. -/
theorem bg_without_percent_selects_job :
    "x2".toList.head? ≠ some '%' ∧
    one_stopped.job_list.take 2 = [⟨5, 1, BG, "a &"⟩, ⟨6, 2, ST, "b &"⟩] ∧
    (outcome_globals
        (eval one_stopped ⟨["bg", "x2"], none, none, .BUILTIN_BG⟩ 0 "bg x2" 0)).map
      (fun g => g.job_list.take 2) = some [⟨5, 1, BG, "a &"⟩, ⟨6, 2, BG, "b &"⟩] ∧
    outcome_globals
        (eval one_stopped ⟨["bg", "x2"], none, none, .BUILTIN_BG⟩ 0 "bg x2" 0)
      ≠ some one_stopped := by
  decide

theorem bg_corner_cases :
    parseline empty_arg_line tok_after_ls
      = some (0, { argv := ["bg", "", "2"], infile := none, outfile := none,
                   builtins := .BUILTIN_BG }) ∧
    argv1_plus_one empty_arg_line = [' ', '2'] ∧
    job_arg "" empty_arg_line = 2 ∧
    (outcome_globals (eval_line one_stopped tok_after_ls empty_arg_line 0)).map
      (fun g => g.job_list.take 2) = some [⟨5, 1, BG, "a &"⟩, ⟨6, 2, BG, "b &"⟩] ∧
    job_arg "%4294967298" "bg %4294967298" = 2 ∧
    (outcome_globals (eval_line one_stopped tok_after_ls "bg %4294967298" 0)).map
      (fun g => g.job_list.take 2) = some [⟨5, 1, BG, "a &"⟩, ⟨6, 2, BG, "b &"⟩] := by
  decide

/-! ## parseline: lemmas -/

theorem length_dropWhile_le' {α : Type} (p : α → Bool) : ∀ l : List α,
    (l.dropWhile p).length ≤ l.length := by
  intro l
  induction l with
  | nil => simp
  | cons a rest ih =>
    simp only [List.dropWhile_cons]
    split
    · simp only [List.length_cons]; omega
    · simp

theorem next_token_length (c : Char) (rest token after : List Char)
    (h : next_token c rest = some (token, after)) : after.length ≤ rest.length := by
  unfold next_token at h
  split at h
  · split at h
    · simp only [Option.some.injEq, Prod.mk.injEq] at h
      rw [← h.2, List.length_drop]
      have := length_dropWhile_le' (fun x => x != c) rest
      omega
    · cases h
  · simp only [Option.some.injEq, Prod.mk.injEq] at h
    rw [← h.2, List.length_drop]
    have := length_dropWhile_le' (fun x => !is_delim x) (c :: rest)
    simp only [List.length_cons] at this
    omega

theorem parse_pass_length (buf buf1 : List Char) (v v1 : parse_vars)
    (h : parse_pass buf v = .next buf1 v1) : buf1.length < buf.length := by
  have hd := length_dropWhile_le' is_delim buf
  unfold parse_pass at h
  split at h
  · cases h
  · rename_i c rest hbuf
    rw [hbuf] at hd
    simp only [List.length_cons] at hd
    split at h
    · split at h
      · cases h
      · simp only [pass_end.next.injEq] at h
        rw [← h.1]
        omega
    · split at h
      · split at h
        · cases h
        · simp only [pass_end.next.injEq] at h
          rw [← h.1]
          omega
      · split at h
        · cases h
        · rename_i token after htok
          have hlen := next_token_length c rest token after htok
          simp only at h
          split at h
          · cases h
          · split at h
            · cases h
            · simp only [pass_end.next.injEq] at h
              rw [← h.1]
              omega

theorem parse_loop_total : ∀ (fuel : Nat) (buf : List Char) (v : parse_vars),
    buf.length < fuel → ∃ e, parse_loop fuel buf v = some e := by
  intro fuel
  induction fuel with
  | zero => intro buf v h; omega
  | succ f ih =>
    intro buf v h
    unfold parse_loop
    cases hp : parse_pass buf v with
    | stop e => exact ⟨e, rfl⟩
    | next buf1 v1 =>
      have := parse_pass_length buf buf1 v v1 hp
      exact ih buf1 v1 (by omega)

theorem parseline_total (cmdline : String) (tok : cmdline_tokens) :
    ∃ r, parseline cmdline tok = some r := by
  have hlen : cmdline.toList.length < cmdline.length + 1 := Nat.lt_succ_self _
  obtain ⟨e, he⟩ := parse_loop_total (cmdline.length + 1) cmdline.toList
    (parse_start cmdline.toList) hlen
  refine ⟨parse_finish tok e, ?_⟩
  unfold parseline
  rw [he]
  rfl

theorem parseline_flag_of_result (cmdline : String) (tok tok1 : cmdline_tokens) (r : Int)
    (h : parseline cmdline tok = some (r, tok1)) (herr : r ≠ -1) :
    ∃ v, parse_loop (cmdline.length + 1) cmdline.toList (parse_start cmdline.toList)
        = some (.finished v) ∧
      v.parsing_state = ST_NORMAL ∧
      ((v.argv = [] ∧ r = 1 ∧ tok1.argv = []) ∨
       ∃ args last, v.argv = args ++ [last] ∧
        ((last.toList.head? = some '&' ∧ r = 1 ∧ tok1.argv = args) ∨
         (last.toList.head? ≠ some '&' ∧ r = 0 ∧ tok1.argv = args ++ [last]))) := by
  unfold parseline at h
  cases hloop : parse_loop (cmdline.length + 1) cmdline.toList (parse_start cmdline.toList) with
  | none => rw [hloop] at h; cases h
  | some e =>
    rw [hloop] at h
    simp only [Option.map_some', Option.some.injEq] at h
    cases e with
    | failed v =>
      simp only [parse_finish, Prod.mk.injEq] at h
      exact absurd h.1.symm herr
    | finished v =>
      refine ⟨v, rfl, ?_⟩
      simp only [parse_finish] at h
      split at h
      · simp only [Prod.mk.injEq] at h
        exact absurd h.1.symm herr
      · rename_i hst
        have hnormal : v.parsing_state = ST_NORMAL := by simpa using hst
        refine ⟨hnormal, ?_⟩
        split at h
        · rename_i hnone
          simp only [Prod.mk.injEq] at h
          have hnil : v.argv = [] := List.getLast?_eq_none_iff.mp hnone
          left
          refine ⟨hnil, h.1.symm, ?_⟩
          rw [← h.2]
          simp [store_vars, hnil]
        · rename_i last hlast
          have happ : v.argv.dropLast ++ [last] = v.argv :=
            List.dropLast_append_getLast? last hlast
          right
          refine ⟨v.argv.dropLast, last, happ.symm, ?_⟩
          split at h
          · rename_i hamp
            simp only [Prod.mk.injEq] at h
            left
            refine ⟨by simpa using hamp, h.1.symm, ?_⟩
            rw [← h.2]
          · rename_i hamp
            simp only [Prod.mk.injEq] at h
            right
            refine ⟨by simpa using hamp, h.1.symm, ?_⟩
            rw [← h.2, happ]

/-! ## parseline on lines without quotes: lemmas -/

/-- C12 (the code at the failing input): the line `cat < < f` holds two `<`
operators outside quotes, and `parseline` returns 0 with `f` as the input
file; so does `cat > > f` for `>`.  A second operator is refused only after
the first has its file name (`cat < f < g`), and a `<` followed by `>` is
refused by the `default` case of the switch (`cat < > f`). -/
theorem parseline_accepts_doubled_operator :
    parseline "cat < < f" tok_after_ls =
      some (0, { argv := ["cat"], infile := some "f", outfile := none,
                 builtins := .BUILTIN_NONE }) ∧
    parseline "cat > > f" tok_after_ls =
      some (0, { argv := ["cat"], infile := none, outfile := some "f",
                 builtins := .BUILTIN_NONE }) ∧
    (parseline "cat < f < g" tok_after_ls).map (fun r => r.1) = some (-1) ∧
    (parseline "cat < > f" tok_after_ls).map (fun r => r.1) = some (-1) := by
  decide

/-- C13 (the code at the failing input): `tok` still holds what the line `ls`
left (`builtins = BUILTIN_NONE`).  On the empty line, on a line of blanks and
on the line `ls <` (return value -1), `parseline` leaves `builtins` as it
was, and `eval` forks and calls `addjob`: the child with pid 7 becomes job 1
in state `BG` and `nextjid` becomes 2. -/
theorem eval_blank_line_adds_job :
    (parseline "" tok_after_ls).map (fun r => (r.1, r.2.builtins))
      = some (1, .BUILTIN_NONE) ∧
    (parseline "ls <" tok_after_ls).map (fun r => (r.1, r.2.builtins))
      = some (-1, .BUILTIN_NONE) ∧
    eval_line init tok_after_ls "" 7 = .returned (addjob init 7 BG "").2 ∧
    eval_line init tok_after_ls "   " 7 = .returned (addjob init 7 BG "   ").2 ∧
    eval_line init tok_after_ls "ls <" 7 = .returned (addjob init 7 BG "ls <").2 ∧
    live_pids (addjob init 7 BG "").2.job_list = [7] ∧
    (addjob init 7 BG "").2.nextjid = 2 ∧
    live_pids init.job_list = [] ∧ init.nextjid = 1 := by
  decide

/-- C14 (the code at the failing input): after the steps of `full_trace` the
table is `full_table`, which holds the pids 100..115 and not the child 116
that the last step launched (its `addjob` failed).  When the handler collects
"116 stopped by signal 20", `getjobpid` returns `NULL` and the handler writes
the state through it: the run of the handler has no result. -/
theorem sigchld_stop_untracked_child :
    run init_shell full_trace = some { g := full_table, waiting := false } ∧
    live_pids full_table.job_list =
      [100, 101, 102, 103, 104, 105, 106, 107, 108, 109, 110, 111, 112, 113, 114, 115] ∧
    getjobpid full_table.job_list 116 = none ∧
    sigchld_handler full_table [(116, .stopped 20)] = none ∧
    run init_shell (full_trace ++ [.sigchld [(116, .stopped 20)]]) = none := by
  decide

end Tsh
